import Mathlib

/-!
Verification of the peer-orchestration core of the amnezia-cluster-api
repository, as a shallow embedding in Lean 4.

The embedding covers:
* the `vpn://` config-link codec
  (`AmneziaWG2ConfigGenerator._create_vpn_link` / `decode_vpn_link`),
* the config-dict builder (`AmneziaWG2ConfigGenerator._build_config_dict`),
* the live-dump parser (`AmneziaWG2Service._parse_wg_dump`),
* the peer-section scanner and remover
  (`AmneziaWG2Service._remove_peer_from_raw_config`, `_extract_peer_app_types`),
* IP allocation (`AmneziaWG2Service._allocate_ip_address`),
* `create_peer` / `delete_peer` / `get_peers` orchestration,
* the execution channel's `write_file` / `read_file`
  (`ContainerConnection.write_file`, shell heredoc transport).

Machine integers are modelled as `Nat`/`Int`; bytes are `Nat` with explicit
`< 256` bounds; Python strings are Lean `String`/`List Char`.  External
libraries (zlib, the JSON parser) are passed in as function parameters and
constrained pointwise by their documented contracts; everything the
repository itself implements is translated concretely.
-/

namespace Amnezia


/-! ## Python-style string primitives -/

/-- The whitespace characters recognised by Python's `\s`, `str.strip()` and
`str.split()` for the ASCII inputs this system handles. -/
def isPyWs (c : Char) : Bool :=
  c = ' ' || c = '\t' || c = '\n' || c = '\r' || c = '\x0b' || c = '\x0c'

/-- Python `str.strip()` on a character list. -/
def stripChars (l : List Char) : List Char :=
  ((l.dropWhile isPyWs).reverse.dropWhile isPyWs).reverse

/-- Python `str.strip()`. -/
def pyStrip (s : String) : String :=
  String.mk (stripChars s.data)

/-- Python `str.split(sep)` for a one-character separator: splits on every
occurrence and keeps empty pieces. -/
def splitOn (sep : Char) : List Char → List (List Char)
  | [] => [[]]
  | c :: t =>
    match splitOn sep t with
    | [] => [[]]
    | piece :: rest => if c = sep then [] :: piece :: rest else (c :: piece) :: rest

/-- Joining with a one-character separator; inverse of `splitOn` on
separator-free pieces. -/
def joinSep (sep : Char) : List (List Char) → List Char
  | [] => []
  | [p] => p
  | p :: q :: rest => p ++ sep :: joinSep sep (q :: rest)

/-- Python `str.replace(pat, "")` (left-to-right, non-overlapping removal of
every occurrence of a non-empty pattern). -/
def removeAll (pat : List Char) : List Char → List Char
  | [] => []
  | c :: t =>
    if pat ≠ [] ∧ pat.isPrefixOf (c :: t) then removeAll pat (List.drop (pat.length - 1) t)
    else c :: removeAll pat t
termination_by l => l.length
decreasing_by
  · simp only [List.length_cons, List.length_drop]
    omega
  · simp

/-! ## Big-endian 32-bit length header (`struct.pack(">I", n)`) -/

/-- `struct.pack(">I", n)`: four big-endian bytes. -/
def pack32be (n : Nat) : List Nat :=
  [n / 2 ^ 24 % 256, n / 2 ^ 16 % 256, n / 2 ^ 8 % 256, n % 256]

/-- `struct.unpack(">I", b[:4])[0]` on the first four bytes. -/
def unpack32be (bs : List Nat) : Nat :=
  match bs with
  | b0 :: b1 :: b2 :: b3 :: _ => b0 * 2 ^ 24 + b1 * 2 ^ 16 + b2 * 2 ^ 8 + b3
  | _ => 0

/-! ## base64url (`base64.urlsafe_b64encode` / `urlsafe_b64decode`) -/

/-- The urlsafe base64 alphabet. -/
def b64Alphabet : List Char :=
  "ABCDEFGHIJKLMNOPQRSTUVWXYZabcdefghijklmnopqrstuvwxyz0123456789-_".data

/-- The character for a six-bit value. -/
def b64Char (n : Nat) : Char := b64Alphabet.getD n 'A'

/-- The six-bit value of an alphabet character. -/
def b64Val (c : Char) : Option Nat :=
  (List.range 64).find? (fun n => b64Char n = c)

/-- `base64.urlsafe_b64encode` of a byte list (with `=` padding). -/
def b64Encode : List Nat → List Char
  | [] => []
  | [b1] => [b64Char (b1 / 4), b64Char (b1 % 4 * 16), '=', '=']
  | [b1, b2] => [b64Char (b1 / 4), b64Char (b1 % 4 * 16 + b2 / 16), b64Char (b2 % 16 * 4), '=']
  | b1 :: b2 :: b3 :: rest =>
    b64Char (b1 / 4) :: b64Char (b1 % 4 * 16 + b2 / 16) ::
      b64Char (b2 % 16 * 4 + b3 / 64) :: b64Char (b3 % 64) :: b64Encode rest

/-- base64 decoding of a (already re-padded) character list, four characters
at a time, honouring trailing `=` padding. -/
def b64Decode : List Char → Option (List Nat)
  | [] => some []
  | c1 :: c2 :: c3 :: c4 :: rest => do
    let v1 ← b64Val c1
    let v2 ← b64Val c2
    if c3 = '=' ∧ c4 = '=' ∧ rest = [] then
      pure [v1 * 4 + v2 / 16]
    else if c4 = '=' ∧ rest = [] then
      let v3 ← b64Val c3
      pure [v1 * 4 + v2 / 16, v2 % 16 * 16 + v3 / 4]
    else
      let v3 ← b64Val c3
      let v4 ← b64Val c4
      let tail ← b64Decode rest
      pure ((v1 * 4 + v2 / 16) :: (v2 % 16 * 16 + v3 / 4) :: (v3 % 4 * 64 + v4) :: tail)
  | _ => none

/-- The number of `=` padding characters produced for a byte list. -/
def b64PadLen (bs : List Nat) : Nat :=
  if bs.length % 3 = 0 then 0 else 3 - bs.length % 3

/-! ## UTF-8 encoding (`str.encode("utf-8")`) -/

/-- The UTF-8 bytes of one character. -/
def utf8Bytes (c : Char) : List Nat :=
  let n := c.toNat
  if n < 128 then [n]
  else if n < 2048 then [192 + n / 64, 128 + n % 64]
  else if n < 65536 then [224 + n / 4096, 128 + n / 64 % 64, 128 + n % 64]
  else [240 + n / 262144, 128 + n / 4096 % 64, 128 + n / 64 % 64, 128 + n % 64]

/-- `s.encode("utf-8")` as a byte list. -/
def utf8Encode (s : String) : List Nat :=
  s.data.foldr (fun c acc => utf8Bytes c ++ acc) []

/-! ## Python `json.dumps(..., indent=4)` over a JSON value type -/

/-- JSON values as produced by `_build_config_dict` (objects keep key order,
mirroring `OrderedDict`). -/
inductive Jv where
  | str : String → Jv
  | num : Int → Jv
  | arr : List Jv → Jv
  | obj : List (String × Jv) → Jv

/-- Lower-case hexadecimal digit. -/
def hexDigit (n : Nat) : Char := "0123456789abcdef".data.getD n '0'

/-- A JSON `\uXXXX` escape for a code unit. -/
def uEscape4 (n : Nat) : List Char :=
  ['\\', 'u', hexDigit (n / 4096 % 16), hexDigit (n / 256 % 16),
   hexDigit (n / 16 % 16), hexDigit (n % 16)]

/-- The `ensure_ascii` escape of one character (surrogate pairs above
the BMP), as `json.dumps` emits it. -/
def pyJsonEscape (c : Char) : List Char :=
  if c = '"' then ['\\', '"']
  else if c = '\\' then ['\\', '\\']
  else if c = '\n' then ['\\', 'n']
  else if c = '\t' then ['\\', 't']
  else if c = '\r' then ['\\', 'r']
  else if c = '\x08' then ['\\', 'b']
  else if c = '\x0c' then ['\\', 'f']
  else if c.toNat < 32 || c.toNat > 126 then
    if c.toNat < 65536 then uEscape4 c.toNat
    else uEscape4 (55296 + (c.toNat - 65536) / 1024) ++ uEscape4 (56320 + (c.toNat - 65536) % 1024)
  else [c]

/-- A JSON string literal with quotes. -/
def jstrQuote (s : String) : List Char :=
  '"' :: s.data.foldr (fun c acc => pyJsonEscape c ++ acc) [] ++ ['"']

/-- `4 * level` spaces of indentation. -/
def jvIndent (l : Nat) : List Char := List.replicate (4 * l) ' '

/-- Joining with a multi-character separator. -/
def joinWith (sep : List Char) : List (List Char) → List Char
  | [] => []
  | [p] => p
  | p :: q :: rest => p ++ sep ++ joinWith sep (q :: rest)

/-- `json.dumps(v, indent=4)` (fuelled so the definition is structural and
kernel-reducible; `pyJsonDumps` supplies enough fuel for any value). -/
def jvDumpF : Nat → Nat → Jv → List Char
  | 0, _, _ => []
  | _ + 1, _, Jv.str s => jstrQuote s
  | _ + 1, _, Jv.num i => (toString i).data
  | _ + 1, _, Jv.arr [] => ['[', ']']
  | fuel + 1, lvl, Jv.arr (x :: xs) =>
    '[' :: '\n' ::
      joinWith (',' :: '\n' :: [])
        ((x :: xs).map (fun y => jvIndent (lvl + 1) ++ jvDumpF fuel (lvl + 1) y)) ++
      '\n' :: jvIndent lvl ++ [']']
  | _ + 1, _, Jv.obj [] => ['\x7b', '\x7d']
  | fuel + 1, lvl, Jv.obj (f :: fs) =>
    '\x7b' :: '\n' ::
      joinWith (',' :: '\n' :: [])
        ((f :: fs).map (fun kv =>
          jvIndent (lvl + 1) ++ jstrQuote kv.1 ++ ':' :: ' ' :: jvDumpF fuel (lvl + 1) kv.2)) ++
      '\n' :: jvIndent lvl ++ ['\x7d']

mutual

/-- Structural size of a JSON value, used only to supply dump fuel. -/
def jvSize : Jv → Nat
  | Jv.str _ => 1
  | Jv.num _ => 1
  | Jv.arr xs => 1 + jvSizeL xs
  | Jv.obj fs => 1 + jvSizeO fs

/-- Size of a JSON array body. -/
def jvSizeL : List Jv → Nat
  | [] => 0
  | x :: t => 1 + jvSize x + jvSizeL t

/-- Size of a JSON object body. -/
def jvSizeO : List (String × Jv) → Nat
  | [] => 0
  | kv :: t => 1 + jvSize kv.2 + jvSizeO t

end

/-- `json.dumps(v, indent=4)`. -/
def pyJsonDumps (v : Jv) : String := String.mk (jvDumpF (jvSize v) 0 v)

/-! ## The `vpn://` codec
(`AmneziaWG2ConfigGenerator._create_vpn_link` / `decode_vpn_link`).
`zlib.compress(_, level=8)` / `zlib.decompress` and `json.loads` are external
libraries, passed in as parameters. -/

/-- The literal scheme. -/
def vpnScheme : List Char := "vpn://".data

/-- Python `str.rstrip("=")`. -/
def stripPad (l : List Char) : List Char :=
  (l.reverse.dropWhile (fun c => c = '=')).reverse

/-- The re-padding step of `decode_vpn_link`:
`padding = 4 - len(s) % 4; if padding != 4: s += "=" * padding`. -/
def repad (l : List Char) : List Char :=
  let p := 4 - l.length % 4
  if p ≠ 4 then l ++ List.replicate p '=' else l

/-- `AmneziaWG2ConfigGenerator._create_vpn_link`: serialize with
`json.dumps(data, indent=4)`, UTF-8 encode, prepend the 4-byte big-endian
byte length, deflate-compress the JSON bytes only, base64url-encode the
concatenation, strip `=` padding, prepend `vpn://`.
(`struct.pack(">I", n)` requires `n < 2^32`; `pack32be` reduces modulo
`2^32`, so statements about links carry that bound as a hypothesis.) -/
def createVpnLink (compress : List Nat → List Nat) (data : Jv) : String :=
  let jsonStr := utf8Encode (pyJsonDumps data)
  let header := pack32be jsonStr.length
  let compressed := compress jsonStr
  String.mk (vpnScheme ++ stripPad (b64Encode (header ++ compressed)))

/-- Failure modes of `decode_vpn_link` (each a raised exception in Python;
`lengthMismatch` is the explicitly raised integrity `ValueError`). -/
inductive DecodeErr where
  | badBase64 : DecodeErr
  | shortPayload : DecodeErr
  | zlibError : DecodeErr
  | lengthMismatch : DecodeErr
  | jsonError : DecodeErr

deriving DecidableEq

/-- The byte-level tail of `decode_vpn_link`: split the 4-byte length header,
decompress the rest, verify the decompressed length against the header,
then `json.loads`. -/
def decodeBytes (decompress : List Nat → Option (List Nat))
    (jloads : List Nat → Option Jv) (compressedData : List Nat) : Except DecodeErr Jv :=
  if compressedData.length < 4 then Except.error DecodeErr.shortPayload
  else
    match decompress (compressedData.drop 4) with
    | none => Except.error DecodeErr.zlibError
    | some d =>
      if d.length ≠ unpack32be compressedData then Except.error DecodeErr.lengthMismatch
      else
        match jloads d with
        | none => Except.error DecodeErr.jsonError
        | some v => Except.ok v

/-- `AmneziaWG2ConfigGenerator.decode_vpn_link`: drop every `vpn://`
occurrence, re-pad, base64url-decode, then `decodeBytes`. -/
def decodeVpnLink (decompress : List Nat → Option (List Nat))
    (jloads : List Nat → Option Jv) (link : String) : Except DecodeErr Jv :=
  match b64Decode (repad (removeAll vpnScheme link.data)) with
  | none => Except.error DecodeErr.badBase64
  | some bytes => decodeBytes decompress jloads bytes

/-! ## `AmneziaWG2ConfigGenerator._build_config_dict` -/

/-- Inputs of `generate_amnezia_vpn_config` / `_build_config_dict`. -/
structure GenArgs where
  clientPrivateKey : String
  clientPublicKey : String
  serverPublicKey : String
  psk : String
  clientIp : String
  awgParams : List (String × String)
  serverEndpoint : String
  serverPort : Int
  primaryDns : String
  secondaryDns : String
  containerName : String
  description : String
  subnetAddress : String
  mtu : String
  persistentKeepalive : Int

/-- Python `dict.get(k, default)` over an association list. -/
def dictGet (d : List (String × String)) (k dflt : String) : String :=
  match d.find? (fun kv => kv.1 = k) with
  | some kv => kv.2
  | none => dflt

/-- `client_ip.split("/", 1)[0]`. -/
def beforeSlash (s : String) : String :=
  String.mk (s.data.takeWhile (fun c => c ≠ '/'))

/-- The fixed obfuscation-parameter key order emitted by
`_build_config_dict` for both the `awg` block and the `last_config` block. -/
def awgKeys : List String :=
  ["H1", "H2", "H3", "H4", "I1", "I2", "I3", "I4", "I5",
   "Jc", "Jmax", "Jmin", "S1", "S2", "S3", "S4"]

/-- `AmneziaWG2ConfigGenerator._build_wireguard_config`: the rendered
plaintext client profile embedded in `last_config`. -/
def wireguardConfig (a : GenArgs) : String :=
  let g := fun k => dictGet a.awgParams k ""
  "[Interface]\n" ++
  "Address = " ++ beforeSlash a.clientIp ++ "/32\n" ++
  "DNS = $PRIMARY_DNS, $SECONDARY_DNS\n" ++
  "MTU = " ++ a.mtu ++ "\n" ++
  "PrivateKey = " ++ a.clientPrivateKey ++ "\n" ++
  "Jc = " ++ g "Jc" ++ "\n" ++
  "Jmin = " ++ g "Jmin" ++ "\n" ++
  "Jmax = " ++ g "Jmax" ++ "\n" ++
  "S1 = " ++ g "S1" ++ "\n" ++
  "S2 = " ++ g "S2" ++ "\n" ++
  "S3 = " ++ g "S3" ++ "\n" ++
  "S4 = " ++ g "S4" ++ "\n" ++
  "H1 = " ++ g "H1" ++ "\n" ++
  "H2 = " ++ g "H2" ++ "\n" ++
  "H3 = " ++ g "H3" ++ "\n" ++
  "H4 = " ++ g "H4" ++ "\n" ++
  "I1 = " ++ g "I1" ++ "\n" ++
  "I2 = " ++ g "I2" ++ "\n" ++
  "I3 = " ++ g "I3" ++ "\n" ++
  "I4 = " ++ g "I4" ++ "\n" ++
  "I5 = " ++ g "I5" ++ "\n" ++
  "\n" ++
  "[Peer]\n" ++
  "PublicKey = " ++ a.serverPublicKey ++ "\n" ++
  "PresharedKey = " ++ a.psk ++ "\n" ++
  "AllowedIPs = 0.0.0.0/0, ::/0\n" ++
  "Endpoint = " ++ a.serverEndpoint ++ ":" ++ toString a.serverPort ++ "\n" ++
  "PersistentKeepalive = " ++ toString a.persistentKeepalive ++ "\n"

/-- The `last_config` ordered dict of `_build_config_dict`. -/
def lastConfig (a : GenArgs) : List (String × Jv) :=
  awgKeys.map (fun k => (k, Jv.str (dictGet a.awgParams k ""))) ++
  [("allowed_ips", Jv.arr [Jv.str "0.0.0.0/0", Jv.str "::/0"]),
   ("clientId", Jv.str a.clientPublicKey),
   ("client_ip", Jv.str (beforeSlash a.clientIp)),
   ("client_priv_key", Jv.str a.clientPrivateKey),
   ("client_pub_key", Jv.str a.clientPublicKey),
   ("config", Jv.str (wireguardConfig a)),
   ("hostName", Jv.str a.serverEndpoint),
   ("mtu", Jv.str a.mtu),
   ("persistent_keep_alive", Jv.str (toString a.persistentKeepalive)),
   ("port", Jv.num a.serverPort),
   ("psk_key", Jv.str a.psk),
   ("server_pub_key", Jv.str a.serverPublicKey)]

/-- The `awg_config` ordered dict of `_build_config_dict`. -/
def awgConfig (a : GenArgs) : List (String × Jv) :=
  awgKeys.map (fun k => (k, Jv.str (dictGet a.awgParams k ""))) ++
  [("last_config", Jv.str (pyJsonDumps (Jv.obj (lastConfig a)))),
   ("port", Jv.str (toString a.serverPort)),
   ("protocol_version", Jv.str "2"),
   ("subnet_address", Jv.str a.subnetAddress),
   ("transport_proto", Jv.str "udp")]

/-- `AmneziaWG2ConfigGenerator._build_config_dict`: the top-level ordered
dict (`description` is emitted only when non-empty). -/
def buildConfigDict (a : GenArgs) : List (String × Jv) :=
  ("containers",
    Jv.arr [Jv.obj [("awg", Jv.obj (awgConfig a)),
                    ("container", Jv.str a.containerName)]]) ::
  ("defaultContainer", Jv.str a.containerName) ::
  ((if a.description ≠ "" then [("description", Jv.str a.description)] else []) ++
   [("dns1", Jv.str a.primaryDns),
    ("dns2", Jv.str a.secondaryDns),
    ("hostName", Jv.str a.serverEndpoint)])

/-- Modelled from the spec (section 4.3, steps 2-4): compute the UTF-8 byte
length of the canonical JSON text, prepend it as a 4-byte big-endian length
header, compress the JSON bytes only, base64url-encode header plus
compressed bytes, strip `=` padding and prefix the literal `vpn://` scheme.
Used as the specification side of the refinement claim C3. -/
def vpnLinkSpec (compress : List Nat → List Nat) (data : Jv) : String :=
  let jsonBytes := utf8Encode (pyJsonDumps data)
  let lengthHeader := pack32be jsonBytes.length
  let compressedBody := compress jsonBytes
  String.mk ("vpn://".data ++ stripPad (b64Encode (lengthHeader ++ compressedBody)))

/-! ## `AmneziaWG2Service._parse_wg_dump` -/

/-- Digits-only numeral value. -/
def digitsToNat (ds : List Char) : Option Nat :=
  if ds ≠ [] ∧ ds.all (fun c => c.isDigit) then
    some (ds.foldl (fun acc c => acc * 10 + (c.toNat - 48)) 0)
  else none

/-- Python `int(s)`: surrounding whitespace, an optional sign, then decimal
digits; anything else raises `ValueError` (`none` here). -/
def pyInt (s : String) : Option Int :=
  match stripChars s.data with
  | '+' :: ds => (digitsToNat ds).map (fun n => (n : Int))
  | '-' :: ds => (digitsToNat ds).map (fun n => -(n : Int))
  | ds => (digitsToNat ds).map (fun n => (n : Int))

/-- `int(s)` under Python exception semantics, for contexts where a
`ValueError` propagates out of `_parse_wg_dump`. -/
def pyIntE (s : String) : Except String Int :=
  match pyInt s with
  | some v => Except.ok v
  | none => Except.error "invalid literal for int() with base 10"

/-- One parsed dump row (the fields `_parse_wg_dump` keeps). -/
structure PeerRow where
  endpoint : Option String
  allowedIps : List String
  lastHandshake : Option Int
  rxBytes : Int
  txBytes : Int
  online : Bool
  persistentKeepalive : Int

deriving DecidableEq

/-- `[ip.strip() for ip in parts[3].split(",") if ip.strip()]`. -/
def parseAllowedIps (s : List Char) : List String :=
  ((splitOn ',' s).map (fun p => String.mk (stripChars p))).filter (fun p => p ≠ "")

/-- One iteration of `_parse_wg_dump`'s row loop: rows with fewer than 8
tab-separated fields are skipped (`ok none`); `int()` failures propagate
(`error`); otherwise the row parses to a keyed `PeerRow`, with `(none)` as a
null endpoint, `"0"` as no handshake, `"off"` as keepalive 0, and
`online := (now - lastHandshake) < onlineThresholdSeconds`. -/
def parseDumpLine (now thr : Int) (line : List Char) :
    Except String (Option (String × PeerRow)) :=
  let parts := splitOn '\t' line
  if parts.length < 8 then Except.ok none
  else do
    let publicKey := String.mk (parts.getD 0 [])
    let ep2 := String.mk (parts.getD 2 [])
    let endpoint := if ep2 = "(none)" then none else some ep2
    let allowedIps := parseAllowedIps (parts.getD 3 [])
    let lastTs ←
      if String.mk (parts.getD 4 []) = "0" then pure (none : Option Int)
      else do
        let v ← pyIntE (String.mk (parts.getD 4 []))
        pure (some v)
    let rxBytes ← pyIntE (String.mk (parts.getD 5 []))
    let txBytes ← pyIntE (String.mk (parts.getD 6 []))
    let persistentKeepalive ←
      if String.mk (parts.getD 7 []) = "off" then pure (0 : Int)
      else pyIntE (String.mk (parts.getD 7 []))
    let lastHandshake :=
      match lastTs with
      | some ts => if ts ≠ 0 then some ts else none
      | none => none
    let online :=
      match lastHandshake with
      | some ts => decide (now - ts < thr)
      | none => false
    pure (some (publicKey,
      { endpoint := endpoint, allowedIps := allowedIps, lastHandshake := lastHandshake,
        rxBytes := rxBytes, txBytes := txBytes, online := online,
        persistentKeepalive := persistentKeepalive }))

/-- Python `dict` assignment `d[k] = v`: overwrite in place or append. -/
def dictInsert {β : Type} (k : String) (v : β) : List (String × β) → List (String × β)
  | [] => [(k, v)]
  | kv :: t => if kv.1 = k then (k, v) :: t else kv :: dictInsert k v t

/-- `AmneziaWG2Service._parse_wg_dump`: strip the dump, split into lines,
ignore the first (header) line, fold the rows into an insertion-ordered
dictionary keyed by public key. -/
def parseWgDump (now thr : Int) (dump : String) :
    Except String (List (String × PeerRow)) :=
  let lines := splitOn '\n' (stripChars dump.data)
  (lines.drop 1).foldlM
    (fun acc line => do
      match ← parseDumpLine now thr line with
      | none => pure acc
      | some kv => pure (dictInsert kv.1 kv.2 acc)) []

/-- A tab-joined dump row, for stating row-level properties. -/
def tabJoin (fields : List String) : String :=
  String.mk (joinSep '\t' (fields.map String.data))

/-! ## The `[Peer]`-section scanner
(`_remove_peer_from_raw_config` and `_extract_peer_app_types` share the
regex `(?ms)^\s*\[Peer\]\s*$.*?(?=^\s*\[[^\]]+\]\s*$|\Z)`, scanned with
`re.finditer`). -/

/-- The literal `[Peer]`. -/
def peerHeaderLit : List Char := "[Peer]".data

/-- The literal `PublicKey`. -/
def publicKeyLit : List Char := "PublicKey".data

/-- The literal `AppType` (`APP_TYPE_METADATA_KEY`). -/
def appTypeLit : List Char := "AppType".data

/-- Literal match, returning the remaining suffix. -/
def matchLit : List Char → List Char → Option (List Char)
  | [], s => some s
  | _ :: _, [] => none
  | p :: pt, c :: ct => if p = c then matchLit pt ct else none

/-- Whether a list ends in a newline (the `^` state after consuming it). -/
def lastIsNl (l : List Char) : Bool :=
  match l.getLast? with
  | some c => c = '\n'
  | none => false

/-- Generic scanner for Python's multiline `^`-anchored searches: walk the
text and, at each position where `^` matches (the start when `ls` is true,
or just after a newline), apply `probe` to the remaining suffix; return the
consumed prefix, the suffix at the first hit, and the probe's result. -/
def findSplit {α : Type} (probe : List Char → Option α) :
    List Char → Bool → Option (List Char × List Char × α)
  | s, ls =>
    match ls, probe s with
    | true, some a => some ([], s, a)
    | _, _ =>
      match s with
      | [] => none
      | c :: t => (findSplit probe t (c = '\n')).map (fun r => (c :: r.1, r.2.1, r.2.2))

/-- Split a whitespace run just before its last newline (the backtracking
of a greedy `\s*` followed by a multiline `$`): `none` when the run has no
newline. -/
def splitAtLastNl : List Char → Option (List Char × List Char)
  | [] => none
  | c :: t =>
    match splitAtLastNl t with
    | some r => some (c :: r.1, r.2)
    | none => if c = '\n' then some ([], c :: t) else none

/-- `^\s*\[Peer\]\s*$` at a `^` position: the consumed header text and the
remaining suffix (`$` settles just before the last newline of the trailing
whitespace run, or at the end of the text). -/
def headerMatch (s : List Char) : Option (List Char × List Char) :=
  let w := s.takeWhile isPyWs
  let r1 := s.dropWhile isPyWs
  match matchLit peerHeaderLit r1 with
  | none => none
  | some r2 =>
    let w2 := r2.takeWhile isPyWs
    let r3 := r2.dropWhile isPyWs
    if r3 = [] then some (w ++ peerHeaderLit ++ w2, [])
    else
      match splitAtLastNl w2 with
      | none => none
      | some r => some (w ++ peerHeaderLit ++ r.1, r.2 ++ r3)

/-- The lookahead `(?=^\s*\[[^\]]+\]\s*$)` at a `^` position. -/
def lookSectionHeader (s : List Char) : Bool :=
  match s.dropWhile isPyWs with
  | '[' :: t =>
    let nm := t.takeWhile (fun c => !(c = ']'))
    let r2 := t.dropWhile (fun c => !(c = ']'))
    match nm, r2 with
    | [], _ => false
    | _ :: _, ']' :: r3 =>
      let w2 := r3.takeWhile isPyWs
      let r4 := r3.dropWhile isPyWs
      r4.isEmpty || w2.contains '\n'
    | _, _ => false
  | _ => false

/-- The lookahead as a probe for `findSplit`. -/
def lookProbe (s : List Char) : Option Unit :=
  if lookSectionHeader s then some () else none

/-- One full match of the section regex at a `^` position:
the matched section text and the unconsumed rest (`finditer` resumes
there).  The lazy `.*?` stops at the first position where the lookahead
holds, else the match runs to the end of the text (`\Z`). -/
def matchPeerSection (s : List Char) : Option (List Char × List Char) :=
  match headerMatch s with
  | none => none
  | some (hdr, rest) =>
    match findSplit lookProbe rest (lastIsNl hdr) with
    | none => some (hdr ++ rest, [])
    | some (body, rest2, _) => some (hdr ++ body, rest2)

/-- `^\s*PublicKey\s*=\s*(\S+)\s*$` at a `^` position: the captured token. -/
def pkLineProbe (s : List Char) : Option (List Char) :=
  match matchLit publicKeyLit (s.dropWhile isPyWs) with
  | none => none
  | some r2 =>
    match r2.dropWhile isPyWs with
    | '=' :: r4 =>
      let r5 := r4.dropWhile isPyWs
      let tok := r5.takeWhile (fun c => !(isPyWs c))
      let r6 := r5.dropWhile (fun c => !(isPyWs c))
      if tok = [] then none
      else
        let w4 := r6.takeWhile isPyWs
        let r7 := r6.dropWhile isPyWs
        if r7.isEmpty || w4.contains '\n' then some tok else none
    | _ => none

/-- `re.search` of the PublicKey pattern over a section: the first match's
captured group (`group(1)`, whitespace-free so `.strip()` is the
identity). -/
def sectionKeyTok (sec : List Char) : Option (List Char) :=
  (findSplit pkLineProbe sec true).map (fun r => r.2.2)

/-- `^\s*#?\s*AppType\s*=\s*(\S+)\s*$` at a `^` position. -/
def appTypeLineProbe (s : List Char) : Option (List Char) :=
  let r1 := s.dropWhile isPyWs
  let r1b :=
    match r1 with
    | '#' :: t => t.dropWhile isPyWs
    | _ => r1
  match matchLit appTypeLit r1b with
  | none => none
  | some r2 =>
    match r2.dropWhile isPyWs with
    | '=' :: r4 =>
      let r5 := r4.dropWhile isPyWs
      let tok := r5.takeWhile (fun c => !(isPyWs c))
      let r6 := r5.dropWhile (fun c => !(isPyWs c))
      if tok = [] then none
      else
        let w4 := r6.takeWhile isPyWs
        let r7 := r6.dropWhile isPyWs
        if r7.isEmpty || w4.contains '\n' then some tok else none
    | _ => none

/-- The first AppType annotation of a section. -/
def sectionAppTypeTok (sec : List Char) : Option (List Char) :=
  (findSplit appTypeLineProbe sec true).map (fun r => r.2.2)

/-- `_remove_peer_from_raw_config`'s finditer-splice loop: every matched
section whose PublicKey token equals the target is excised; the rest of the
text is kept verbatim; the flag is `removed_any` (fuelled by the section
count, bounded by the text length). -/
def removeScanF (key : List Char) : Nat → List Char → List Char × Bool
  | 0, s => (s, false)
  | fuel + 1, s =>
    match findSplit matchPeerSection s true with
    | none => (s, false)
    | some (pre, _, sec, rest) =>
      let r := removeScanF key fuel rest
      match sectionKeyTok sec with
      | some tok =>
        if tok = key then (pre ++ r.1, true) else (pre ++ sec ++ r.1, r.2)
      | none => (pre ++ sec ++ r.1, r.2)

/-- `AmneziaWG2Service._remove_peer_from_raw_config`: the rewritten config
text and `removed_any` (when nothing matched the original string is
returned unchanged). -/
def removeRawConfig (config publicKey : String) : String × Bool :=
  let r := removeScanF publicKey.data (config.data.length + 1) config.data
  if r.2 then (String.mk r.1, true) else (config, false)

/-- `AmneziaWG2Service.delete_peer`: read the config, remove matching
sections; if the result is string-equal to the original, return `false`
without writing; otherwise write the new config (and re-sync) and return
`true`.  The first component is the resulting on-target file content. -/
def deletePeerModel (config publicKey : String) : String × Bool :=
  let updated := (removeRawConfig config publicKey).1
  if updated = config then (config, false) else (updated, true)

/-- ASCII `str.lower()`. -/
def asciiLower (c : Char) : Char :=
  if 'A' ≤ c ∧ c ≤ 'Z' then Char.ofNat (c.toNat + 32) else c

/-- `AmneziaWG2Service._normalize_app_type`. -/
def normalizeAppType (appType : String) : Except String String :=
  let normalized := String.mk ((stripChars appType.data).map asciiLower)
  if normalized = "amnezia_vpn" || normalized = "vpn" then Except.ok "amnezia_vpn"
  else if normalized = "amnezia_wg" || normalized = "wg" || normalized = "amneziawg" then
    Except.ok "amnezia_wg"
  else Except.error "Unsupported app_type"

/-- `_extract_peer_app_types`'s section loop: sections without a PublicKey
line are skipped; an absent or unnormalizable AppType annotation falls back
to the default; assignments overwrite dictionary entries in place. -/
def extractScanF (defaultApp : String) :
    Nat → List Char → List (String × String) → List (String × String)
  | 0, _, acc => acc
  | fuel + 1, s, acc =>
    match findSplit matchPeerSection s true with
    | none => acc
    | some (_, _, sec, rest) =>
      match sectionKeyTok sec with
      | none => extractScanF defaultApp fuel rest acc
      | some pk =>
        let appT :=
          match sectionAppTypeTok sec with
          | some raw =>
            match normalizeAppType (String.mk raw) with
            | Except.ok v => v
            | Except.error _ => defaultApp
          | none => defaultApp
        extractScanF defaultApp fuel rest (dictInsert (String.mk pk) appT acc)

/-- `AmneziaWG2Service._extract_peer_app_types`. -/
def extractPeerAppTypes (config defaultApp : String) : List (String × String) :=
  extractScanF defaultApp (config.data.length + 1) config.data []

/-- `dict.get(k)` over the app-type dictionary. -/
def dictLookup (d : List (String × String)) (k : String) : Option String :=
  (d.find? (fun kv => kv.1 = k)).map (fun kv => kv.2)

/-- One entry of `get_peers`'s result list. -/
structure PeerRecord where
  publicKey : String
  appType : String
  endpoint : Option String
  allowedIps : List String
  lastHandshake : Option Int
  rxBytes : Int
  txBytes : Int
  online : Bool
  persistentKeepalive : Int

deriving DecidableEq

/-- `AmneziaWG2Service.get_peers`: parse the live dump, extract the AppType
annotations from the config file, and emit one record per entry of the
parsed dump dictionary (the loop iterates over `peers_data.items()` only;
`last_handshake` is kept as the timestamp the code renders with
`isoformat()`). -/
def getPeersModel (now thr : Int) (dump config defaultApp : String) :
    Except String (List PeerRecord) := do
  let peersData ← parseWgDump now thr dump
  let appTypes := extractPeerAppTypes config defaultApp
  pure (peersData.map (fun kv =>
    { publicKey := kv.1,
      appType := (dictLookup appTypes kv.1).getD defaultApp,
      endpoint := kv.2.endpoint, allowedIps := kv.2.allowedIps,
      lastHandshake := kv.2.lastHandshake, rxBytes := kv.2.rxBytes,
      txBytes := kv.2.txBytes, online := kv.2.online,
      persistentKeepalive := kv.2.persistentKeepalive }))

/-! ## Canonically rendered configs
(`_add_peer_to_config` appends exactly this section shape). -/

/-- One peer section as `_add_peer_to_config` writes it. -/
structure RenderedPeer where
  appType : String
  publicKey : String
  presharedKey : String
  allowedIp : String

/-- `_add_peer_to_config`'s appended text:
newline, `[Peer]`, the AppType comment, PublicKey, PresharedKey,
AllowedIPs, each on its own line. -/
def renderPeer (p : RenderedPeer) : List Char :=
  "\n[Peer]\n# AppType = ".data ++ p.appType.data ++
  "\nPublicKey = ".data ++ p.publicKey.data ++
  "\nPresharedKey = ".data ++ p.presharedKey.data ++
  "\nAllowedIPs = ".data ++ p.allowedIp.data ++ "\n".data

/-- Concatenated rendering of a peer list. -/
def renderPeers : List RenderedPeer → List Char
  | [] => []
  | p :: t => renderPeer p ++ renderPeers t

/-- A full config: interface part followed by rendered peer sections. -/
def renderConfig (iface : String) (ps : List RenderedPeer) : String :=
  String.mk (iface.data ++ renderPeers ps)

/-- A non-empty, whitespace-free field value. -/
def wfToken (s : String) : Prop :=
  s.data ≠ [] ∧ ∀ c ∈ s.data, isPyWs c = false

/-- Well-formed peer fields. -/
def wfPeer (p : RenderedPeer) : Prop :=
  wfToken p.appType ∧ wfToken p.publicKey ∧ wfToken p.presharedKey ∧ wfToken p.allowedIp

/-- Well-formed interface part: starts with `[I` (as `[Interface]` does),
contains no further `[`, and ends with a non-blank line - so no `[Peer]`
match can begin inside it or swallow its trailing whitespace. -/
def wfIface (s : String) : Prop :=
  ∃ m c, s.data = '[' :: 'I' :: m ++ [c, '\n'] ∧ '[' ∉ m ∧ c ≠ '[' ∧ isPyWs c = false

/-! ## The sections a config parses into (for stating the no-match case
of `delete_peer` over arbitrary config texts). -/

/-- All finditer matches of the section regex, in order (fuelled). -/
def sectionsScanF : Nat → List Char → List (List Char)
  | 0, _ => []
  | fuel + 1, s =>
    match findSplit matchPeerSection s true with
    | none => []
    | some (_, _, sec, rest) => sec :: sectionsScanF fuel rest

/-- The `[Peer]` sections of a config, as the code's regex carves them. -/
def configSections (config : String) : List (List Char) :=
  sectionsScanF (config.data.length + 1) config.data

/-! ## The claim's own segmentation of a config
(modelled from the spec: blocks begin at a `[Peer]` header line and extend
to just before the next section header line or end of file; a block is
removed when its PublicKey line matches the key exactly).  Used only as the
specification side of claim C5. -/

/-- A line whose stripped content is exactly `[Peer]`. -/
def lineIsPeerHeader (l : List Char) : Bool :=
  stripChars l = peerHeaderLit

/-- A section header line: stripped content is bracketed. -/
def lineIsSectionHeader (l : List Char) : Bool :=
  match stripChars l with
  | '[' :: t =>
    match t.getLast? with
    | some c => c = ']'
    | none => false
  | _ => false

/-- Whether a single line is a `PublicKey = <key>` line for this key. -/
def linePkMatches (key : List Char) (l : List Char) : Bool :=
  match pkLineProbe l with
  | some tok => tok = key
  | none => false

/-- Modelled from the spec (claim C5's wording): segment the config's lines
into blocks starting at `[Peer]` header lines and ending just before the
next section header or end of file; excise exactly the blocks whose
PublicKey line matches the key; keep everything else verbatim (fuelled). -/
def removeSpecLinesF (key : List Char) : Nat → List (List Char) → List (List Char)
  | 0, ls => ls
  | fuel + 1, ls =>
    match ls with
    | [] => []
    | l :: t =>
      if lineIsPeerHeader l then
        let blockTail := t.takeWhile (fun x => !(lineIsSectionHeader x))
        let rest := t.dropWhile (fun x => !(lineIsSectionHeader x))
        if (l :: blockTail).any (linePkMatches key) then removeSpecLinesF key fuel rest
        else (l :: blockTail) ++ removeSpecLinesF key fuel rest
      else l :: removeSpecLinesF key fuel t

/-- The claim-side removal over a whole config text. -/
def removeSpec (config key : String) : String :=
  let ls := splitOn '\n' config.data
  String.mk (joinSep '\n' (removeSpecLinesF key.data (ls.length + 1) ls))

/-! ## `AmneziaWG2Service._allocate_ip_address` -/

/-- The literal `Address`. -/
def addressLit : List Char := "Address".data

/-- The character class `[\d\.]`. -/
def isDigitDot (c : Char) : Bool := c.isDigit || c = '.'

/-- `Address\s*=\s*([\d\.]+/\d+)` matched at one position; the captured
group. -/
def addressProbe (s : List Char) : Option (List Char) :=
  match matchLit addressLit s with
  | none => none
  | some r1 =>
    match r1.dropWhile isPyWs with
    | '=' :: r3 =>
      let r4 := r3.dropWhile isPyWs
      let run1 := r4.takeWhile isDigitDot
      match run1, r4.dropWhile isDigitDot with
      | [], _ => none
      | _ :: _, '/' :: r6 =>
        match r6.takeWhile (fun c => c.isDigit) with
        | [] => none
        | run2 => some (run1 ++ '/' :: run2)
      | _, _ => none
    | _ => none

/-- `re.search` without `^` anchors: try the probe at every position, left
to right. -/
def findAny {α : Type} (probe : List Char → Option α) : List Char → Option α
  | [] => probe []
  | c :: t =>
    match probe (c :: t) with
    | some a => some a
    | none => findAny probe t

/-- One dotted-decimal octet under Python `ipaddress` rules: 1-3 digits,
value at most 255, no leading zeros. -/
def parseOctet (p : List Char) : Option Nat :=
  if p ≠ [] ∧ p.all Char.isDigit ∧ p.length ≤ 3 ∧ ¬ (p.length > 1 ∧ p.head? = some '0') then
    let v := p.foldl (fun acc c => acc * 10 + (c.toNat - 48)) 0
    if v ≤ 255 then some v else none
  else none

/-- A dotted-quad IPv4 address as a 32-bit value. -/
def parseIPv4 (s : List Char) : Option Nat :=
  match splitOn '.' s with
  | [a, b, c, d] => do
    let va ← parseOctet a
    let vb ← parseOctet b
    let vc ← parseOctet c
    let vd ← parseOctet d
    pure (va * 16777216 + vb * 65536 + vc * 256 + vd)
  | _ => none

/-- A prefix length: decimal digits, value at most 32. -/
def parsePrefixLen (s : List Char) : Option Nat :=
  match digitsToNat s with
  | some v => if v ≤ 32 then some v else none
  | none => none

/-- `ipaddress.IPv4Network(cap, strict=False)`: (network address, prefix
length); host bits are masked off. -/
def parseNet (cap : List Char) : Option (Nat × Nat) :=
  match splitOn '/' cap with
  | [a, p] => do
    let addr ← parseIPv4 a
    let plen ← parsePrefixLen p
    pure (addr / 2 ^ (32 - plen) * 2 ^ (32 - plen), plen)
  | _ => none

/-- `network.hosts()` in ascending order (`/31` and `/32` as Python
special-cases them). -/
def hostsList (net : Nat × Nat) : List Nat :=
  if net.2 = 32 then [net.1]
  else if net.2 = 31 then [net.1, net.1 + 1]
  else (List.range (2 ^ (32 - net.2) - 2)).map (fun i => net.1 + 1 + i)

/-- `str(IPv4Address(n))`. -/
def ipDotted (n : Nat) : String :=
  toString (n / 16777216 % 256) ++ "." ++ toString (n / 65536 % 256) ++ "." ++
    toString (n / 256 % 256) ++ "." ++ toString (n % 256)

deriving instance DecidableEq for Except

/-- Failure modes of the service operations (each a raised `ValueError` in
Python). -/
inductive SvcErr where
  | noSubnet : SvcErr
  | badNetwork : SvcErr
  | badUsedIp : SvcErr
  | dumpError : String → SvcErr
  | exhausted : SvcErr
  | badAppType : SvcErr
  | noListenPort : SvcErr
  | payloadError : SvcErr

deriving DecidableEq

/-- The used-set construction: every `AllowedIPs` entry containing `/`
contributes the address before the slash (`IPv4Address` raising on
malformed entries). -/
def usedFromIps : List String → Except SvcErr (List Nat)
  | [] => Except.ok []
  | ip :: t =>
    if '/' ∈ ip.data then
      match parseIPv4 (ip.data.takeWhile (fun c => c ≠ '/')) with
      | none => Except.error SvcErr.badUsedIp
      | some v => do
        let rest ← usedFromIps t
        pure (v :: rest)
    else usedFromIps t

/-- All `AllowedIPs` entries of the parsed dump, in iteration order. -/
def allUsedIps (peers : List (String × PeerRow)) : List String :=
  peers.foldr (fun kv acc => kv.2.allowedIps ++ acc) []

/-- `AmneziaWG2Service._allocate_ip_address`: find the subnet CIDR in the
config, build the used set from the live dump, and return the first host
address that is neither used nor the reserved `network address + 1`,
formatted as `<address>/32`; errors are terminal. -/
def allocateIp (config dump : String) (now thr : Int) : Except SvcErr String :=
  match findAny addressProbe config.data with
  | none => Except.error SvcErr.noSubnet
  | some cap =>
    match parseNet cap with
    | none => Except.error SvcErr.badNetwork
    | some net =>
      match parseWgDump now thr dump with
      | Except.error e => Except.error (SvcErr.dumpError e)
      | Except.ok peers =>
        match usedFromIps (allUsedIps peers) with
        | Except.error e => Except.error e
        | Except.ok used =>
          match (hostsList net).find? (fun ip => !(used.contains ip) && !(ip = net.1 + 1)) with
          | some ip => Except.ok (ipDotted ip ++ "/32")
          | none => Except.error SvcErr.exhausted

/-! ## `AmneziaWG2Service._get_server_port` -/

/-- The literal `[Interface]`. -/
def interfaceLit : List Char := "[Interface]".data

/-- The literal `ListenPort`. -/
def listenPortLit : List Char := "ListenPort".data

/-- Case-insensitive literal match (`re.IGNORECASE`). -/
def matchLitCI : List Char → List Char → Option (List Char)
  | [], s => some s
  | _ :: _, [] => none
  | p :: pt, c :: ct => if asciiLower p = asciiLower c then matchLitCI pt ct else none

/-- `ListenPort\s*=\s*(\d+)` at one position (case-insensitive), the
captured number. -/
def listenPortProbe (s : List Char) : Option Nat :=
  match matchLitCI listenPortLit s with
  | none => none
  | some r1 =>
    match r1.dropWhile isPyWs with
    | '=' :: r3 =>
      let r4 := r3.dropWhile isPyWs
      match digitsToNat (r4.takeWhile (fun c => c.isDigit)) with
      | some v => some v
      | none => none
    | _ => none

/-- `\[Interface\][\s\S]*?ListenPort\s*=\s*(\d+)` at one position: the
lazy middle takes the first `ListenPort` assignment anywhere after the
header. -/
def interfacePortProbe (s : List Char) : Option Nat :=
  match matchLitCI interfaceLit s with
  | none => none
  | some r1 => findAny listenPortProbe r1

/-- `AmneziaWG2Service._get_server_port`. -/
def getServerPort (config : String) : Except SvcErr Nat :=
  match findAny interfacePortProbe config.data with
  | some v => Except.ok v
  | none => Except.error SvcErr.noListenPort

/-! ## `AmneziaWG2Service.create_peer` -/

/-- The successful result of `create_peer` (the fields the claims touch);
`fileContent` is the on-target config after the call. -/
structure CreateOk where
  fileContent : String
  appType : String
  configPayload : String
  allocatedIp : String
  endpoint : String

deriving DecidableEq

/-- `AmneziaWG2Service.create_peer` as a state-threading function over the
on-target config file.  Effects in source order: normalize the app type
(raises first), generate keys (read-only; passed in), allocate an address
when none was requested, default the mask to `/32`, find the listen port
(raises before any write), append the peer section and sync (the only
write), then build the config payload.  `payloadGen` abstracts
`_generate_config_payload`, whose implementations only read
(`_generate_config_uri` / `_generate_text_config`, closing over the
generated private key); its failure aborts after the write.  Errors carry the file content at raise time. -/
def createPeerModel
    (config dump : String) (now thr : Int)
    (appType : String) (allocatedIp : Option String)
    (publicKey psk serverHost : String)
    (payloadGen : String → String → Nat → Option String) :
    Except (SvcErr × String) CreateOk :=
  match normalizeAppType appType with
  | Except.error _ => Except.error (SvcErr.badAppType, config)
  | Except.ok nt =>
    match
      (match allocatedIp with
       | none => allocateIp config dump now thr
       | some ip => Except.ok ip) with
    | Except.error e => Except.error (e, config)
    | Except.ok ip0 =>
      let ip := if '/' ∈ ip0.data then ip0 else ip0 ++ "/32"
      match getServerPort config with
      | Except.error e => Except.error (e, config)
      | Except.ok port =>
        let newConfig := String.mk (config.data ++
          renderPeer { appType := nt, publicKey := publicKey,
                       presharedKey := psk, allowedIp := ip })
        match payloadGen nt ip port with
        | none => Except.error (SvcErr.payloadError, newConfig)
        | some payload =>
          Except.ok { fileContent := newConfig, appType := nt, configPayload := payload,
                      allocatedIp := ip, endpoint := serverHost ++ ":" ++ toString port }

/-! ## `ContainerConnection.write_file` / `read_file`
(the shell-heredoc execution channel). -/

/-- `write_file`: the bytes that end up in the target file.  The command is
`cat > path <<'EOF'` followed by `content.replace("'", "'\\''")` and `EOF`;
with a quoted heredoc delimiter the shell performs no substitution, so the
file receives the escaped text verbatim, line by line, up to the first line
that is exactly `EOF`, each line newline-terminated. -/
def writeFileModel (content : String) : String :=
  let escaped := content.data.foldr
    (fun c acc =>
      if c = '\x27' then '\x27' :: '\\' :: '\x27' :: '\x27' :: acc else c :: acc) []
  let lines := splitOn '\n' (escaped ++ '\n' :: "EOF".data)
  String.mk ((lines.takeWhile (fun l => !(l = "EOF".data))).foldr
    (fun l acc => l ++ '\n' :: acc) [])

/-- `read_file`: `cat` output, stripped by `run_command`
(`stdout.decode().strip()`). -/
def readFileModel (fileContent : String) : String := pyStrip fileContent

/-- The text of a rendered peer after its `\n[Peer]\n` header. -/
def peerBody (p : RenderedPeer) : List Char :=
  "# AppType = ".data ++ p.appType.data ++ "\nPublicKey = ".data ++ p.publicKey.data ++
  "\nPresharedKey = ".data ++ p.presharedKey.data ++ "\nAllowedIPs = ".data ++
  p.allowedIp.data ++ "\n".data

theorem splitOn_ne_nil (sep : Char) (l : List Char) : splitOn sep l ≠ [] := by
  cases l with
  | nil => simp [splitOn]
  | cons c t =>
    simp only [splitOn]
    cases h : splitOn sep t with
    | nil => simp
    | cons piece rest =>
      by_cases hc : c = sep <;> simp [hc]

theorem splitOn_of_not_mem (sep : Char) (p : List Char) (hp : sep ∉ p) :
    splitOn sep p = [p] := by
  induction p with
  | nil => rfl
  | cons c t iht =>
    have hc : c ≠ sep := fun h => hp (h ▸ List.mem_cons_self c t)
    have ht : sep ∉ t := fun h => hp (List.mem_cons_of_mem c h)
    simp [splitOn, iht ht, hc]

theorem splitOn_sepfree_append (sep : Char) (p l : List Char) (hp : sep ∉ p) :
    splitOn sep (p ++ sep :: l) = p :: splitOn sep l := by
  induction p with
  | nil =>
    simp only [List.nil_append, splitOn]
    cases h : splitOn sep l with
    | nil => exact absurd h (splitOn_ne_nil _ _)
    | cons piece rest => simp
  | cons c t iht =>
    have hc : c ≠ sep := fun h => hp (h ▸ List.mem_cons_self c t)
    have ht : sep ∉ t := fun h => hp (List.mem_cons_of_mem c h)
    simp only [List.cons_append, splitOn, List.append_eq]
    rw [iht ht]
    simp [hc]

theorem splitOn_joinSep (sep : Char) (ps : List (List Char))
    (hps : ps ≠ []) (hfree : ∀ p ∈ ps, sep ∉ p) :
    splitOn sep (joinSep sep ps) = ps := by
  induction ps with
  | nil => exact absurd rfl hps
  | cons p rest ih =>
    cases rest with
    | nil => exact splitOn_of_not_mem sep p (hfree p (by simp))
    | cons q rest2 =>
      have hrest : splitOn sep (joinSep sep (q :: rest2)) = q :: rest2 :=
        ih (by simp) (fun x hx => hfree x (List.mem_cons_of_mem p hx))
      simp only [joinSep]
      rw [splitOn_sepfree_append sep p _ (hfree p (by simp)), hrest]

theorem removeAll_cons_of_ne (pat : List Char) (c : Char) (t : List Char)
    (h : ¬ pat.isPrefixOf (c :: t)) : removeAll pat (c :: t) = c :: removeAll pat t := by
  rw [removeAll]
  simp [h]

/-- If some character of the pattern never occurs in the text, removal is the
identity. -/
theorem removeAll_of_not_mem (pat l : List Char) (c : Char)
    (hc : c ∈ pat) (hl : c ∉ l) : removeAll pat l = l := by
  induction l with
  | nil => rw [removeAll]
  | cons d t ih =>
    have hpref : ¬ pat.isPrefixOf (d :: t) := by
      intro hp
      exact hl ((List.isPrefixOf_iff_prefix.mp hp).subset hc)
    rw [removeAll_cons_of_ne pat d t hpref]
    have : c ∉ t := fun h => hl (List.mem_cons_of_mem d h)
    rw [ih this]

/-- Removing a leading occurrence of the pattern. -/
theorem removeAll_append_self (pat l : List Char) (hpat : pat ≠ []) :
    removeAll pat (pat ++ l) = removeAll pat l := by
  cases hp : pat with
  | nil => exact absurd hp hpat
  | cons c t =>
    have hpref : (c :: t).isPrefixOf (c :: (t ++ l)) = true :=
      List.isPrefixOf_iff_prefix.mpr ⟨l, by simp⟩
    rw [show (c :: t) ++ l = c :: (t ++ l) by simp, removeAll]
    rw [if_pos ⟨by simp, hpref⟩]
    rw [show (c :: t).length - 1 = t.length by simp, List.drop_left t l]

theorem pack32be_length (n : Nat) : (pack32be n).length = 4 := rfl

theorem pack32be_lt_256 (n : Nat) : ∀ b ∈ pack32be n, b < 256 := by
  intro b hb
  simp only [pack32be, List.mem_cons, List.mem_singleton, List.not_mem_nil, or_false] at hb
  rcases hb with h | h | h | h <;> subst h <;> omega

theorem unpack32be_pack32be (n : Nat) (hn : n < 2 ^ 32) (rest : List Nat) :
    unpack32be (pack32be n ++ rest) = n := by
  simp only [pack32be, unpack32be, List.cons_append]
  omega

theorem b64Val_b64Char (n : Nat) (hn : n < 64) : b64Val (b64Char n) = some n := by
  interval_cases n <;> rfl

theorem b64Char_ne_eq (n : Nat) (hn : n < 64) : b64Char n ≠ '=' := by
  interval_cases n <;> decide

theorem b64Encode_length (bs : List Nat) : (b64Encode bs).length % 4 = 0 := by
  induction bs using b64Encode.induct with
  | case1 => simp [b64Encode]
  | case2 _ => simp [b64Encode]
  | case3 _ _ => simp [b64Encode]
  | case4 b1 b2 b3 rest ih =>
    simp only [b64Encode, List.length_cons]
    omega

/-! ## base64 round-trip lemmas -/

theorem b64Char_eq_of_ge (k : Nat) (hk : 64 ≤ k) : b64Char k = 'A' := by
  have hlen : b64Alphabet.length ≤ k := by
    have h64 : b64Alphabet.length = 64 := by decide
    omega
  unfold b64Char
  exact List.getD_eq_default _ _ hlen

theorem b64Char_exists_lt (k : Nat) : ∃ n, n < 64 ∧ b64Char k = b64Char n := by
  by_cases hk : k < 64
  · exact ⟨k, hk, rfl⟩
  · refine ⟨0, by omega, ?_⟩
    rw [b64Char_eq_of_ge k (by omega)]
    decide

theorem b64Char_ne_colon (n : Nat) : b64Char n ≠ ':' := by
  by_cases hn : n < 64
  · interval_cases n <;> decide
  · rw [b64Char_eq_of_ge n (by omega)]
    decide

theorem b64Decode_b64Encode (bs : List Nat) (h : ∀ b ∈ bs, b < 256) :
    b64Decode (b64Encode bs) = some bs := by
  induction bs using b64Encode.induct with
  | case1 => rfl
  | case2 b1 =>
    have hb1 : b1 < 256 := h b1 (by simp)
    have e1 : b64Val (b64Char (b1 / 4)) = some (b1 / 4) := b64Val_b64Char _ (by omega)
    have e2 : b64Val (b64Char (b1 % 4 * 16)) = some (b1 % 4 * 16) := b64Val_b64Char _ (by omega)
    simp only [b64Encode, b64Decode, e1, e2, Option.bind_eq_bind, Option.some_bind]
    rw [if_pos (by simp)]
    have r1 : b1 / 4 * 4 + b1 % 4 * 16 / 16 = b1 := by omega
    rw [r1]
    rfl
  | case3 b1 b2 =>
    have hb1 : b1 < 256 := h b1 (by simp)
    have hb2 : b2 < 256 := h b2 (by simp)
    have e1 : b64Val (b64Char (b1 / 4)) = some (b1 / 4) := b64Val_b64Char _ (by omega)
    have e2 : b64Val (b64Char (b1 % 4 * 16 + b2 / 16)) = some (b1 % 4 * 16 + b2 / 16) :=
      b64Val_b64Char _ (by omega)
    have e3 : b64Val (b64Char (b2 % 16 * 4)) = some (b2 % 16 * 4) := b64Val_b64Char _ (by omega)
    have hne : b64Char (b2 % 16 * 4) ≠ '=' := b64Char_ne_eq _ (by omega)
    simp only [b64Encode, b64Decode, e1, e2, e3, Option.bind_eq_bind, Option.some_bind]
    rw [if_neg (by simp [hne]), if_pos (by simp)]
    have r1 : b1 / 4 * 4 + (b1 % 4 * 16 + b2 / 16) / 16 = b1 := by omega
    have r2 : (b1 % 4 * 16 + b2 / 16) % 16 * 16 + b2 % 16 * 4 / 4 = b2 := by omega
    rw [r1, r2]
    rfl
  | case4 b1 b2 b3 rest ih =>
    have hb1 : b1 < 256 := h b1 (by simp)
    have hb2 : b2 < 256 := h b2 (by simp)
    have hb3 : b3 < 256 := h b3 (by simp)
    have hrest : ∀ b ∈ rest, b < 256 := fun b hb => h b (by simp [hb])
    have e1 : b64Val (b64Char (b1 / 4)) = some (b1 / 4) := b64Val_b64Char _ (by omega)
    have e2 : b64Val (b64Char (b1 % 4 * 16 + b2 / 16)) = some (b1 % 4 * 16 + b2 / 16) :=
      b64Val_b64Char _ (by omega)
    have e3 : b64Val (b64Char (b2 % 16 * 4 + b3 / 64)) = some (b2 % 16 * 4 + b3 / 64) :=
      b64Val_b64Char _ (by omega)
    have e4 : b64Val (b64Char (b3 % 64)) = some (b3 % 64) := b64Val_b64Char _ (by omega)
    have hne3 : b64Char (b2 % 16 * 4 + b3 / 64) ≠ '=' := b64Char_ne_eq _ (by omega)
    have hne4 : b64Char (b3 % 64) ≠ '=' := b64Char_ne_eq _ (by omega)
    simp only [b64Encode, b64Decode, e1, e2, e3, e4, Option.bind_eq_bind, Option.some_bind]
    rw [if_neg (by simp [hne3]), if_neg (by simp [hne4])]
    rw [ih hrest]
    simp only [Option.some_bind]
    have r1 : b1 / 4 * 4 + (b1 % 4 * 16 + b2 / 16) / 16 = b1 := by omega
    have r2 : (b1 % 4 * 16 + b2 / 16) % 16 * 16 + (b2 % 16 * 4 + b3 / 64) / 4 = b2 := by omega
    have r3 : (b2 % 16 * 4 + b3 / 64) % 4 * 64 + b3 % 64 = b3 := by omega
    rw [r1, r2, r3]
    rfl

theorem b64PadLen_cons3 (b1 b2 b3 : Nat) (rest : List Nat) :
    b64PadLen (b1 :: b2 :: b3 :: rest) = b64PadLen rest := by
  have h3 : (rest.length + 1 + 1 + 1) % 3 = rest.length % 3 := by omega
  simp only [b64PadLen, List.length_cons, h3]

theorem b64Encode_body_pads (bs : List Nat) :
    ∃ body, b64Encode bs = body ++ List.replicate (b64PadLen bs) '=' ∧
      ∀ c ∈ body, ∃ n, n < 64 ∧ c = b64Char n := by
  induction bs using b64Encode.induct with
  | case1 => exact ⟨[], by simp [b64Encode, b64PadLen], by simp⟩
  | case2 b1 =>
    refine ⟨[b64Char (b1 / 4), b64Char (b1 % 4 * 16)], ?_, ?_⟩
    · simp [b64Encode, b64PadLen, List.replicate]
    · intro c hc
      simp only [List.mem_cons, List.mem_singleton, List.not_mem_nil, or_false] at hc
      rcases hc with h | h <;> exact h ▸ b64Char_exists_lt _
  | case3 b1 b2 =>
    refine ⟨[b64Char (b1 / 4), b64Char (b1 % 4 * 16 + b2 / 16), b64Char (b2 % 16 * 4)], ?_, ?_⟩
    · simp [b64Encode, b64PadLen, List.replicate]
    · intro c hc
      simp only [List.mem_cons, List.mem_singleton, List.not_mem_nil, or_false] at hc
      rcases hc with h | h | h <;> exact h ▸ b64Char_exists_lt _
  | case4 b1 b2 b3 rest ih =>
    obtain ⟨body, hbody, hmem⟩ := ih
    refine ⟨b64Char (b1 / 4) :: b64Char (b1 % 4 * 16 + b2 / 16) ::
      b64Char (b2 % 16 * 4 + b3 / 64) :: b64Char (b3 % 64) :: body, ?_, ?_⟩
    · simp [b64Encode, hbody, b64PadLen_cons3]
    · intro c hc
      simp only [List.mem_cons] at hc
      rcases hc with h | h | h | h | h
      · exact h ▸ b64Char_exists_lt _
      · exact h ▸ b64Char_exists_lt _
      · exact h ▸ b64Char_exists_lt _
      · exact h ▸ b64Char_exists_lt _
      · exact hmem c h

theorem dropWhile_eq_of_ne (p : Char → Bool) (l : List Char)
    (h : ∀ c ∈ l, ¬ p c) : l.dropWhile p = l := by
  cases l with
  | nil => rfl
  | cons c t =>
    have : ¬ p c := h c (by simp)
    simp [List.dropWhile_cons, this]

theorem stripPad_append_pads (body : List Char) (k : Nat)
    (hb : ∀ c ∈ body, c ≠ '=') :
    stripPad (body ++ List.replicate k '=') = body := by
  unfold stripPad
  rw [List.reverse_append, List.reverse_replicate]
  have h1 : ∀ l, List.dropWhile (fun c => c = '=') (List.replicate k '=' ++ l) =
      List.dropWhile (fun c => c = '=') l := by
    intro l
    induction k with
    | zero => simp
    | succ n ihn => simp [List.replicate_succ, ihn]
  rw [h1]
  rw [dropWhile_eq_of_ne _ _ (by
    intro c hc
    simp only [List.mem_reverse] at hc
    simpa using hb c hc)]
  simp

theorem b64PadLen_le_two (bs : List Nat) : b64PadLen bs ≤ 2 := by
  simp only [b64PadLen]
  split
  · omega
  · omega

theorem repad_stripped (body : List Char) (k : Nat) (hk : k ≤ 2)
    (hlen : (body.length + k) % 4 = 0) :
    repad body = body ++ List.replicate k '=' := by
  simp only [repad]
  interval_cases k
  · have h4 : body.length % 4 = 0 := by omega
    rw [if_neg (by omega)]
    simp
  · have h4 : body.length % 4 = 3 := by omega
    rw [if_pos (by omega), h4]
  · have h4 : body.length % 4 = 2 := by omega
    rw [if_pos (by omega), h4]

/-- Round trip through stripping and re-padding: the exact pipeline of
`_create_vpn_link` followed by `decode_vpn_link` at the base64 layer. -/
theorem b64_strip_repad_decode (bs : List Nat) (h : ∀ b ∈ bs, b < 256) :
    b64Decode (repad (stripPad (b64Encode bs))) = some bs ∧
      ':' ∉ stripPad (b64Encode bs) := by
  obtain ⟨body, hbody, hmem⟩ := b64Encode_body_pads bs
  have hne : ∀ c ∈ body, c ≠ '=' := by
    intro c hc
    obtain ⟨n, hn, rfl⟩ := hmem c hc
    exact b64Char_ne_eq n hn
  have hstrip : stripPad (b64Encode bs) = body := hbody ▸ stripPad_append_pads body _ hne
  have hlen : (body.length + b64PadLen bs) % 4 = 0 := by
    have := b64Encode_length bs
    rw [hbody, List.length_append, List.length_replicate] at this
    exact this
  have hrepad : repad body = body ++ List.replicate (b64PadLen bs) '=' :=
    repad_stripped body _ (b64PadLen_le_two bs) hlen
  constructor
  · rw [hstrip, hrepad, ← hbody]
    exact b64Decode_b64Encode bs h
  · rw [hstrip]
    intro hc
    obtain ⟨n, hn, hcn⟩ := hmem _ hc
    exact b64Char_ne_colon n hcn.symm

/-! ## UTF-8 byte bounds -/

theorem char_toNat_lt (c : Char) : c.toNat < 1114112 := by
  have h := c.valid
  rcases h with h | ⟨h1, h2⟩
  · have : c.toNat < 55296 := h
    omega
  · exact h2

theorem utf8Bytes_lt_256 (c : Char) : ∀ b ∈ utf8Bytes c, b < 256 := by
  intro b hb
  have hc := char_toNat_lt c
  simp only [utf8Bytes] at hb
  split at hb
  · simp only [List.mem_singleton] at hb
    omega
  · split at hb
    · simp only [List.mem_cons, List.mem_singleton, List.not_mem_nil, or_false] at hb
      rcases hb with h | h <;> omega
    · split at hb
      · simp only [List.mem_cons, List.mem_singleton, List.not_mem_nil, or_false] at hb
        rcases hb with h | h | h <;> omega
      · simp only [List.mem_cons, List.mem_singleton, List.not_mem_nil, or_false] at hb
        rcases hb with h | h | h | h <;> omega

theorem utf8Encode_lt_256 (s : String) : ∀ b ∈ utf8Encode s, b < 256 := by
  simp only [utf8Encode]
  induction s.data with
  | nil => simp
  | cons c t ih =>
    intro b hb
    simp only [List.foldr_cons, List.mem_append] at hb
    rcases hb with h | h
    · exact utf8Bytes_lt_256 c b h
    · exact ih b h

/-! ## Claims C1 - C3 -/

theorem vpnScheme_ne_nil : vpnScheme ≠ [] := by decide

theorem colon_mem_vpnScheme : ':' ∈ vpnScheme := by decide

/-- The whole pipeline from a byte payload through `_create_vpn_link`'s
base64-and-strip step and `decode_vpn_link`'s replace-repad-decode step. -/
theorem decode_link_chars (payload : List Nat) (hp : ∀ b ∈ payload, b < 256) :
    b64Decode (repad (removeAll vpnScheme
      (vpnScheme ++ stripPad (b64Encode payload)))) = some payload := by
  obtain ⟨hdec, hcolon⟩ := b64_strip_repad_decode payload hp
  rw [removeAll_append_self _ _ vpnScheme_ne_nil,
    removeAll_of_not_mem vpnScheme _ ':' colon_mem_vpnScheme hcolon]
  exact hdec

/-- C1.  Codec round-trip: decoding the `vpn://` link produced by
`_create_vpn_link` recovers the encoded config object.  `zlib` and
`json.loads` are external; the hypotheses are their documented contracts at
the serialized object (`zlib.decompress` inverts `zlib.compress`, compressed
output is bytes, `json.loads` inverts `json.dumps` up to the structural
equality the spec calls canonicalization), plus the `struct.pack` bound
`len < 2^32`. -/
theorem claim_C1_codec_roundtrip
    (compress : List Nat → List Nat) (decompress : List Nat → Option (List Nat))
    (jloads : List Nat → Option Jv) (c : Jv)
    (hzlib : decompress (compress (utf8Encode (pyJsonDumps c))) =
      some (utf8Encode (pyJsonDumps c)))
    (hjson : jloads (utf8Encode (pyJsonDumps c)) = some c)
    (hbytes : ∀ b ∈ compress (utf8Encode (pyJsonDumps c)), b < 256)
    (hlen : (utf8Encode (pyJsonDumps c)).length < 2 ^ 32) :
    decodeVpnLink decompress jloads (createVpnLink compress c) = Except.ok c := by
  set jb := utf8Encode (pyJsonDumps c) with hjb
  set payload := pack32be jb.length ++ compress jb with hpayload
  have hpl : ∀ b ∈ payload, b < 256 := by
    intro b hb
    rw [hpayload] at hb
    rcases List.mem_append.mp hb with h | h
    · exact pack32be_lt_256 _ b h
    · exact hbytes b h
  have hlink : (createVpnLink compress c).data =
      vpnScheme ++ stripPad (b64Encode payload) := rfl
  have h1 : decodeVpnLink decompress jloads (createVpnLink compress c) =
      decodeBytes decompress jloads payload := by
    unfold decodeVpnLink
    rw [hlink, decode_link_chars payload hpl]
  rw [h1]
  unfold decodeBytes
  have hlen4 : ¬ payload.length < 4 := by
    rw [hpayload, List.length_append, pack32be_length]
    omega
  rw [if_neg hlen4]
  have hunpack : unpack32be payload = jb.length := unpack32be_pack32be _ hlen _
  have hdrop : payload.drop 4 = compress jb := by
    rw [hpayload]
    simp [pack32be]
  simp only [hdrop, hzlib, hunpack, hjson]
  simp

/-- C1 witness: a concrete round trip with the identity compressor and a
JSON parser satisfying the pointwise contract at the chosen object. -/
theorem claim_C1_codec_roundtrip_witness :
    decodeVpnLink some (fun _ => some (Jv.str "x"))
      (createVpnLink id (Jv.str "x")) = Except.ok (Jv.str "x") :=
  claim_C1_codec_roundtrip id some (fun _ => some (Jv.str "x")) (Jv.str "x")
    rfl rfl (fun b hb => utf8Encode_lt_256 _ b hb)
    (by simp only [pyJsonDumps, jvSize]; decide)

/-- C2.  Decode integrity check: whenever the decompressed byte length
differs from the 4-byte length header, `decode_vpn_link` fails with the
integrity `ValueError` (`CorruptPayload`) - both at the byte level (first
conjunct, any payload) and for a full `vpn://` link whose stored length
header was tampered to `n` (second conjunct). -/
theorem claim_C2_decode_integrity
    (decompress : List Nat → Option (List Nat)) (jloads : List Nat → Option Jv)
    (n : Nat) (payload d : List Nat)
    (hn : n < 2 ^ 32)
    (hp : ∀ b ∈ payload, b < 256)
    (hdc : decompress payload = some d)
    (hmismatch : d.length ≠ n) :
    decodeBytes decompress jloads (pack32be n ++ payload) =
      Except.error DecodeErr.lengthMismatch ∧
    decodeVpnLink decompress jloads
      (String.mk (vpnScheme ++ stripPad (b64Encode (pack32be n ++ payload)))) =
      Except.error DecodeErr.lengthMismatch := by
  have hbytes : ∀ b ∈ pack32be n ++ payload, b < 256 := by
    intro b hb
    rcases List.mem_append.mp hb with h | h
    · exact pack32be_lt_256 _ b h
    · exact hp b h
  have hmain : decodeBytes decompress jloads (pack32be n ++ payload) =
      Except.error DecodeErr.lengthMismatch := by
    unfold decodeBytes
    have hlen4 : ¬ (pack32be n ++ payload).length < 4 := by
      rw [List.length_append, pack32be_length]
      omega
    rw [if_neg hlen4]
    have hunpack : unpack32be (pack32be n ++ payload) = n := unpack32be_pack32be _ hn _
    have hdrop : (pack32be n ++ payload).drop 4 = payload := by
      simp [pack32be]
    simp only [hdrop, hdc, hunpack]
    rw [if_pos hmismatch]
  refine ⟨hmain, ?_⟩
  unfold decodeVpnLink
  have hlink : (String.mk (vpnScheme ++ stripPad (b64Encode (pack32be n ++ payload)))).data =
      vpnScheme ++ stripPad (b64Encode (pack32be n ++ payload)) := rfl
  rw [hlink, decode_link_chars _ hbytes]
  exact hmain

/-- C2 witness: a concrete tampered link (header says 7, payload
decompresses to 3 bytes) is rejected with the integrity error. -/
theorem claim_C2_decode_integrity_witness :
    decodeBytes some (fun _ => none) (pack32be 7 ++ [1, 2, 3]) =
      Except.error DecodeErr.lengthMismatch ∧
    decodeVpnLink some (fun _ => none)
      (String.mk (vpnScheme ++ stripPad (b64Encode (pack32be 7 ++ [1, 2, 3])))) =
      Except.error DecodeErr.lengthMismatch :=
  claim_C2_decode_integrity some (fun _ => none) 7 [1, 2, 3] [1, 2, 3]
    (by decide) (by decide) rfl (by decide)

/-- C3.  Encode envelope: the obfuscation keys of the `awg` and
`last_config` blocks are emitted in the fixed order H1..H4, I1..I5, Jc,
Jmax, Jmin, S1..S4 followed by the remaining fields in declaration order;
the top-level keys follow declaration order (with `description` present
exactly when non-empty); and `_create_vpn_link` realises, for every config
object, the spec's envelope: 4-byte big-endian UTF-8 byte length header,
deflate compression of the JSON bytes only, base64url, stripped `=`
padding, `vpn://` prefix. -/
theorem claim_C3_encode_envelope (a : GenArgs) (compress : List Nat → List Nat) :
    (awgConfig a).map Prod.fst =
      ["H1", "H2", "H3", "H4", "I1", "I2", "I3", "I4", "I5",
       "Jc", "Jmax", "Jmin", "S1", "S2", "S3", "S4",
       "last_config", "port", "protocol_version", "subnet_address", "transport_proto"] ∧
    (lastConfig a).map Prod.fst =
      ["H1", "H2", "H3", "H4", "I1", "I2", "I3", "I4", "I5",
       "Jc", "Jmax", "Jmin", "S1", "S2", "S3", "S4",
       "allowed_ips", "clientId", "client_ip", "client_priv_key", "client_pub_key",
       "config", "hostName", "mtu", "persistent_keep_alive", "port",
       "psk_key", "server_pub_key"] ∧
    (buildConfigDict a).map Prod.fst =
      (if a.description ≠ "" then
        ["containers", "defaultContainer", "description", "dns1", "dns2", "hostName"]
       else ["containers", "defaultContainer", "dns1", "dns2", "hostName"]) ∧
    (∀ d : Jv, createVpnLink compress d = vpnLinkSpec compress d) := by
  refine ⟨by simp [awgConfig, awgKeys], by simp [lastConfig, awgKeys], ?_, fun d => rfl⟩
  by_cases hd : a.description ≠ "" <;> simp [buildConfigDict, hd]

/-! ## Claim C7 -/

/-- C7.  Dump-parser contract: the first (header) line is ignored (first
conjunct: any two headers give identical parses, for dumps the outer
`strip()` leaves alone); a tab-separated row with fewer than 8 fields is
skipped; a well-formed row with endpoint `(none)`, handshake `0` and
keepalive `off` yields a null endpoint, no handshake timestamp, keepalive 0
and `online = false`; and a row with a real handshake timestamp `ts` is
online exactly when `now - ts < threshold` (strict). -/
theorem claim_C7_dump_rows (now thr : Int) :
    (∀ h1 h2 rest : String,
      stripChars (h1.data ++ '\n' :: rest.data) = h1.data ++ '\n' :: rest.data →
      stripChars (h2.data ++ '\n' :: rest.data) = h2.data ++ '\n' :: rest.data →
      '\n' ∉ h1.data → '\n' ∉ h2.data →
      parseWgDump now thr (h1 ++ "\n" ++ rest) = parseWgDump now thr (h2 ++ "\n" ++ rest)) ∧
    (∀ line : List Char, (splitOn '\t' line).length < 8 →
      parseDumpLine now thr line = Except.ok none) ∧
    (∀ pk psk ips rxs txs : String, ∀ rx tx : Int,
      (∀ f ∈ [pk, psk, "(none)", ips, "0", rxs, txs, "off"], '\t' ∉ f.data) →
      pyInt rxs = some rx → pyInt txs = some tx →
      parseDumpLine now thr (tabJoin [pk, psk, "(none)", ips, "0", rxs, txs, "off"]).data =
        Except.ok (some (pk,
          { endpoint := none, allowedIps := parseAllowedIps ips.data,
            lastHandshake := none, rxBytes := rx, txBytes := tx, online := false,
            persistentKeepalive := 0 }))) ∧
    (∀ pk psk ep ips hs rxs txs kas : String, ∀ ts rx tx ka : Int,
      (∀ f ∈ [pk, psk, ep, ips, hs, rxs, txs, kas], '\t' ∉ f.data) →
      ep ≠ "(none)" → hs ≠ "0" → pyInt hs = some ts → ts ≠ 0 →
      pyInt rxs = some rx → pyInt txs = some tx →
      kas ≠ "off" → pyInt kas = some ka →
      parseDumpLine now thr (tabJoin [pk, psk, ep, ips, hs, rxs, txs, kas]).data =
        Except.ok (some (pk,
          { endpoint := some ep, allowedIps := parseAllowedIps ips.data,
            lastHandshake := some ts, rxBytes := rx, txBytes := tx,
            online := decide (now - ts < thr), persistentKeepalive := ka }))) := by
  refine ⟨?_, ?_, ?_, ?_⟩
  · intro h1 h2 rest hs1 hs2 hn1 hn2
    unfold parseWgDump
    have hd1 : (h1 ++ "\n" ++ rest).data = h1.data ++ '\n' :: rest.data := by
      simp [String.data_append]
    have hd2 : (h2 ++ "\n" ++ rest).data = h2.data ++ '\n' :: rest.data := by
      simp [String.data_append]
    rw [hd1, hd2, hs1, hs2, splitOn_sepfree_append _ _ _ hn1, splitOn_sepfree_append _ _ _ hn2]
    simp
  · intro line hlen
    unfold parseDumpLine
    rw [if_pos hlen]
  · intro pk psk ips rxs txs rx tx htabs hrx htx
    have hparts : splitOn '\t' (tabJoin [pk, psk, "(none)", ips, "0", rxs, txs, "off"]).data =
        [pk.data, psk.data, "(none)".data, ips.data, "0".data, rxs.data, txs.data, "off".data] := by
      show splitOn '\t' (joinSep '\t' _) = _
      rw [splitOn_joinSep _ _ (by simp)]
      · simp
      · intro p hp
        simp only [List.map_cons, List.map_nil, List.mem_cons, List.not_mem_nil, or_false] at hp
        rcases hp with h | h | h | h | h | h | h | h <;> subst h <;>
          first
          | exact htabs pk (by simp)
          | exact htabs psk (by simp)
          | exact htabs "(none)" (by simp)
          | exact htabs ips (by simp)
          | exact htabs "0" (by simp)
          | exact htabs rxs (by simp)
          | exact htabs txs (by simp)
          | exact htabs "off" (by simp)
    unfold parseDumpLine
    rw [hparts]
    simp only [List.length_cons, List.length_nil]
    rw [if_neg (by omega)]
    simp only [List.getD, List.get?_cons_zero, List.get?_cons_succ, Option.getD_some]
    have hmk : ∀ s : String, String.mk s.data = s := fun s => rfl
    simp only [hmk]
    simp only [if_true]
    simp only [pyIntE, hrx, htx]
    rfl
  · intro pk psk ep ips hs rxs txs kas ts rx tx ka htabs hep hhs hts hts0 hrx htx hka0 hka
    have hparts : splitOn '\t' (tabJoin [pk, psk, ep, ips, hs, rxs, txs, kas]).data =
        [pk.data, psk.data, ep.data, ips.data, hs.data, rxs.data, txs.data, kas.data] := by
      show splitOn '\t' (joinSep '\t' _) = _
      rw [splitOn_joinSep _ _ (by simp)]
      · simp
      · intro p hp
        simp only [List.map_cons, List.map_nil, List.mem_cons, List.not_mem_nil, or_false] at hp
        rcases hp with h | h | h | h | h | h | h | h <;> subst h <;>
          first
          | exact htabs pk (by simp)
          | exact htabs psk (by simp)
          | exact htabs ep (by simp)
          | exact htabs ips (by simp)
          | exact htabs hs (by simp)
          | exact htabs rxs (by simp)
          | exact htabs txs (by simp)
          | exact htabs kas (by simp)
    unfold parseDumpLine
    rw [hparts]
    simp only [List.length_cons, List.length_nil]
    rw [if_neg (by omega)]
    simp only [List.getD, List.get?_cons_zero, List.get?_cons_succ, Option.getD_some]
    have hmk : ∀ s : String, String.mk s.data = s := fun s => rfl
    simp only [hmk]
    rw [if_neg hep, if_neg hhs]
    simp only [if_neg hka0, pyIntE, hts, hrx, htx, hka]
    simp only [bind, Except.bind, pure, Except.pure]
    simp only [if_pos hts0]

/-- C7 witness: concrete rows at threshold 180 with `now = 1000`: a
never-handshaked `(none)`/`off` row, a handshake `threshold - 1` seconds ago
(online) and one `threshold + 1` seconds ago (offline); plus two different
header lines parsing identically. -/
theorem claim_C7_dump_rows_witness :
    parseWgDump 1000 180 ("hdrA" ++ "\n" ++ "x") = parseWgDump 1000 180 ("hdrB" ++ "\n" ++ "x") ∧
    parseDumpLine 1000 180 (tabJoin ["PK", "p", "(none)", "10.0.0.2/32", "0", "5", "6", "off"]).data =
      Except.ok (some ("PK",
        { endpoint := none, allowedIps := parseAllowedIps "10.0.0.2/32".data,
          lastHandshake := none, rxBytes := 5, txBytes := 6, online := false,
          persistentKeepalive := 0 })) ∧
    parseDumpLine 1000 180 (tabJoin ["PK", "p", "1.2.3.4:5", "10.0.0.2/32", "821", "5", "6", "25"]).data =
      Except.ok (some ("PK",
        { endpoint := some "1.2.3.4:5", allowedIps := parseAllowedIps "10.0.0.2/32".data,
          lastHandshake := some 821, rxBytes := 5, txBytes := 6, online := true,
          persistentKeepalive := 25 })) ∧
    parseDumpLine 1000 180 (tabJoin ["PK", "p", "1.2.3.4:5", "10.0.0.2/32", "819", "5", "6", "25"]).data =
      Except.ok (some ("PK",
        { endpoint := some "1.2.3.4:5", allowedIps := parseAllowedIps "10.0.0.2/32".data,
          lastHandshake := some 819, rxBytes := 5, txBytes := 6, online := false,
          persistentKeepalive := 25 })) := by
  obtain ⟨ha, hb, hA, hB⟩ := claim_C7_dump_rows 1000 180
  refine ⟨?_, ?_, ?_, ?_⟩
  · exact ha "hdrA" "hdrB" "x" (by decide) (by decide) (by decide) (by decide)
  · exact hA "PK" "p" "10.0.0.2/32" "5" "6" 5 6 (by decide) (by decide) (by decide)
  · exact hB "PK" "p" "1.2.3.4:5" "10.0.0.2/32" "821" "5" "6" "25" 821 5 6 25
      (by decide) (by decide) (by decide) (by decide) (by decide)
      (by decide) (by decide) (by decide) (by decide)
  · exact hB "PK" "p" "1.2.3.4:5" "10.0.0.2/32" "819" "5" "6" "25" 819 5 6 25
      (by decide) (by decide) (by decide) (by decide) (by decide)
      (by decide) (by decide) (by decide) (by decide)

/-! ## Claim C9 -/

/-- C9.  `write_file` fidelity fails: the code escapes single quotes with
`'\''` but transports the content through a *quoted* heredoc
(`<<'EOF'`), in which the shell performs no substitution, so the escape
sequence lands in the file verbatim.  At content `a'b` the file receives
`a'\''b` plus a trailing newline, and even the stripped `read_file`
read-back differs from the written content.  (A quote-free content is
faithfully written up to the appended trailing newline, which the stripped
read-back hides.) -/
theorem claim_C9_write_file_quote_bug :
    writeFileModel "a\x27b" = "a\x27\\\x27\x27b\n" ∧
    readFileModel (writeFileModel "a\x27b") = "a\x27\\\x27\x27b" ∧
    readFileModel (writeFileModel "a\x27b") ≠ "a\x27b" ∧
    writeFileModel "abc" = "abc\n" ∧
    readFileModel (writeFileModel "abc") = "abc" := by
  refine ⟨?_, ?_, ?_, ?_, ?_⟩ <;> decide

/-! ## Claim C10 -/

/-- C10.  `create_peer` failure atomicity: whenever the model fails with an
unrecognized application type, a missing subnet `Address`, an exhausted
subnet, or a missing `ListenPort`, the error is raised before the config
write, so the file content carried by the error equals the original
config. -/
theorem claim_C10_create_peer_atomicity
    (config dump : String) (now thr : Int)
    (appType : String) (allocatedIp : Option String)
    (publicKey psk serverHost : String)
    (payloadGen : String → String → Nat → Option String)
    (e : SvcErr) (fs : String)
    (hrun : createPeerModel config dump now thr appType allocatedIp
      publicKey psk serverHost payloadGen = Except.error (e, fs))
    (hkind : e = SvcErr.badAppType ∨ e = SvcErr.noSubnet ∨
      e = SvcErr.exhausted ∨ e = SvcErr.noListenPort) :
    fs = config := by
  unfold createPeerModel at hrun
  cases hnorm : normalizeAppType appType with
  | error msg =>
    rw [hnorm] at hrun
    cases hrun
    rfl
  | ok nt =>
    rw [hnorm] at hrun
    cases hip : (match allocatedIp with
      | none => allocateIp config dump now thr
      | some ip => Except.ok ip) with
    | error e2 =>
      rw [hip] at hrun
      cases hrun
      rfl
    | ok ip0 =>
      rw [hip] at hrun
      cases hport : getServerPort config with
      | error e3 =>
        rw [hport] at hrun
        cases hrun
        rfl
      | ok port =>
        rw [hport] at hrun
        simp only [] at hrun
        cases hpay : payloadGen nt (if '/' ∈ ip0.data then ip0 else ip0 ++ "/32") port with
        | none =>
          rw [hpay] at hrun
          cases hrun
          rcases hkind with h | h | h | h <;> cases h
        | some payload =>
          rw [hpay] at hrun
          cases hrun

/-- C10 witness: a `create_peer` run with an unrecognized application type
fails before any write, leaving the concrete config untouched. -/
theorem claim_C10_create_peer_atomicity_witness :
    ("[Interface]\nAddress = 10.8.0.0/24\nListenPort = 51820\n" : String) =
      "[Interface]\nAddress = 10.8.0.0/24\nListenPort = 51820\n" :=
  claim_C10_create_peer_atomicity
    "[Interface]\nAddress = 10.8.0.0/24\nListenPort = 51820\n" "" 0 180
    "bogus" none "PUB" "PSK" "host" (fun _ _ _ => some "")
    SvcErr.badAppType "[Interface]\nAddress = 10.8.0.0/24\nListenPort = 51820\n"
    (by decide) (Or.inl rfl)

/-! ## Claim C8 -/

/-- C8 (amended).  `get_peers` iterates over the parsed dump dictionary
only: the public keys of its output are exactly the dump's keys, in order,
so a peer present in the config file but absent from the dump yields no
record at all. -/
theorem claim_C8_list_peers_dump_only
    (now thr : Int) (dump config defaultApp : String)
    (rows : List (String × PeerRow))
    (hp : parseWgDump now thr dump = Except.ok rows) :
    ∃ recs, getPeersModel now thr dump config defaultApp = Except.ok recs ∧
      recs.map (fun r => r.publicKey) = rows.map (fun kv => kv.1) ∧
      ∀ k, k ∉ rows.map (fun kv => kv.1) → ∀ r ∈ recs, r.publicKey ≠ k := by
  have hout : getPeersModel now thr dump config defaultApp = Except.ok (rows.map (fun kv =>
      ({ publicKey := kv.1,
         appType := (dictLookup (extractPeerAppTypes config defaultApp) kv.1).getD defaultApp,
         endpoint := kv.2.endpoint, allowedIps := kv.2.allowedIps,
         lastHandshake := kv.2.lastHandshake, rxBytes := kv.2.rxBytes,
         txBytes := kv.2.txBytes, online := kv.2.online,
         persistentKeepalive := kv.2.persistentKeepalive } : PeerRecord))) := by
    unfold getPeersModel
    rw [hp]
    rfl
  refine ⟨_, hout, ?_, ?_⟩
  · simp [List.map_map, Function.comp]
  · intro k hk r hr
    simp only [List.mem_map] at hr
    obtain ⟨kv, hkv, hrkv⟩ := hr
    intro hcontra
    exact hk (List.mem_map.mpr ⟨kv, hkv, by rw [← hcontra, ← hrkv]⟩)

set_option maxRecDepth 100000 in
/-- C8 counterexample to the original claim: a config whose `[Peer]`
section carries key `K1` (visible to the code's own AppType extraction),
with a dump containing no rows - `get_peers` returns the empty list, so no
record with zeroed counters is emitted for `K1`. -/
theorem claim_C8_counterexample :
    (extractPeerAppTypes
      "[Interface]\nAddress = 10.8.0.0/24\n\n[Peer]\n# AppType = amnezia_wg\nPublicKey = K1\nPresharedKey = s\nAllowedIPs = 10.8.0.2/32\n"
      "amnezia_wg").map (fun kv => kv.1) = ["K1"] ∧
    getPeersModel 0 180 "hdr"
      "[Interface]\nAddress = 10.8.0.0/24\n\n[Peer]\n# AppType = amnezia_wg\nPublicKey = K1\nPresharedKey = s\nAllowedIPs = 10.8.0.2/32\n"
      "amnezia_wg" = Except.ok [] := by
  constructor
  · decide
  · decide

set_option maxRecDepth 100000 in
/-- C8 witness: with one dump row for `K2` and a config carrying only
`K1`, the output keys are exactly `[K2]`. -/
theorem claim_C8_list_peers_dump_only_witness :
    ∃ recs, getPeersModel 1000 180
        "hdr\nK2\tx\t(none)\t10.8.0.3/32\t0\t0\t0\toff"
        "[Interface]\nAddress = 10.8.0.0/24\n\n[Peer]\nPublicKey = K1\nPresharedKey = s\nAllowedIPs = 10.8.0.2/32\n"
        "amnezia_wg" = Except.ok recs ∧
      recs.map (fun r => r.publicKey) = ["K2"] ∧
      ∀ k, k ∉ ["K2"] → ∀ r ∈ recs, r.publicKey ≠ k :=
  claim_C8_list_peers_dump_only 1000 180
    "hdr\nK2\tx\t(none)\t10.8.0.3/32\t0\t0\t0\toff"
    "[Interface]\nAddress = 10.8.0.0/24\n\n[Peer]\nPublicKey = K1\nPresharedKey = s\nAllowedIPs = 10.8.0.2/32\n"
    "amnezia_wg"
    [("K2", { endpoint := none, allowedIps := ["10.8.0.3/32"], lastHandshake := none, rxBytes := 0, txBytes := 0, online := false, persistentKeepalive := 0 })]
    (by decide)

/-! ## Claim C4 -/

theorem contains_false_not_mem (l : List Nat) (x : Nat)
    (h : l.contains x = false) : x ∉ l := by
  intro hin
  have he : l.elem x = true := List.elem_iff.mpr hin
  rw [List.contains] at h
  rw [he] at h
  cases h

theorem find?_eq_some_split {α : Type} (p : α → Bool) (l : List α) (a : α)
    (h : l.find? p = some a) :
    ∃ l1 l2, l = l1 ++ a :: l2 ∧ (∀ x ∈ l1, p x = false) := by
  induction l with
  | nil => simp [List.find?] at h
  | cons c t ih =>
    by_cases hc : p c
    · rw [List.find?_cons_of_pos _ hc] at h
      cases h
      exact ⟨[], t, rfl, by simp⟩
    · rw [List.find?_cons_of_neg _ hc] at h
      obtain ⟨l1, l2, heq, hall⟩ := ih h
      refine ⟨c :: l1, l2, by simp [heq], ?_⟩
      intro x hx
      rcases List.mem_cons.mp hx with rfl | hx2
      · exact Bool.eq_false_iff.mpr hc
      · exact hall x hx2

theorem hostsList_pairwise (net : Nat × Nat) : (hostsList net).Pairwise (· < ·) := by
  unfold hostsList
  split
  · simp
  · split
    · simp
    · exact (List.pairwise_lt_range _).map _ (fun a b hab => by omega)

/-- C4.  IP allocation: whenever `_allocate_ip_address` succeeds, the
returned address is a host of the parsed subnet formatted as
`<address>/32`, it is neither in the used set built from the dump's
`AllowedIPs` entries nor the reserved `network address + 1`, and it is the
numerically first such host; when every host is used or reserved the
terminal exhaustion error is raised; and on the concrete
`Address = 10.8.0.0/24` config with an empty dump the result is
`10.8.0.2/32`.  Allocation is a pure function of config and dump, so
repeated calls return the same address. -/
theorem claim_C4_ip_allocation (config dump : String) (now thr : Int) :
    (∀ s, allocateIp config dump now thr = Except.ok s →
      ∃ cap net peers used ip,
        findAny addressProbe config.data = some cap ∧
        parseNet cap = some net ∧
        parseWgDump now thr dump = Except.ok peers ∧
        usedFromIps (allUsedIps peers) = Except.ok used ∧
        ip ∈ hostsList net ∧
        s = ipDotted ip ++ "/32" ∧
        ip ∉ used ∧
        ip ≠ net.1 + 1 ∧
        (∀ ip2 ∈ hostsList net, ip2 < ip → ip2 ∈ used ∨ ip2 = net.1 + 1)) ∧
    (∀ cap net peers used,
      findAny addressProbe config.data = some cap →
      parseNet cap = some net →
      parseWgDump now thr dump = Except.ok peers →
      usedFromIps (allUsedIps peers) = Except.ok used →
      (∀ ip ∈ hostsList net, ip ∈ used ∨ ip = net.1 + 1) →
      allocateIp config dump now thr = Except.error SvcErr.exhausted) ∧
    allocateIp "[Interface]\nAddress = 10.8.0.0/24\nListenPort = 51820\n" "" now thr =
      Except.ok "10.8.0.2/32" := by
  refine ⟨?_, ?_, ?_⟩
  · intro s hs
    unfold allocateIp at hs
    cases hcap : findAny addressProbe config.data with
    | none => simp only [hcap] at hs; cases hs
    | some cap =>
      simp only [hcap] at hs
      cases hnet : parseNet cap with
      | none => simp only [hnet] at hs; cases hs
      | some net =>
        simp only [hnet] at hs
        cases hpeers : parseWgDump now thr dump with
        | error e => simp only [hpeers] at hs; cases hs
        | ok peers =>
          simp only [hpeers] at hs
          cases hused : usedFromIps (allUsedIps peers) with
          | error e => simp only [hused] at hs; cases hs
          | ok used =>
            simp only [hused] at hs
            cases hfind : (hostsList net).find?
                (fun ip => !(used.contains ip) && !(ip = net.1 + 1)) with
            | none => simp only [hfind] at hs; cases hs
            | some ip =>
              simp only [hfind, Except.ok.injEq] at hs
              subst hs
              have hpred := List.find?_some hfind
              simp only [Bool.and_eq_true, Bool.not_eq_true'] at hpred
              have hmem := List.mem_of_find?_eq_some hfind
              have h1 : ip ∉ used := contains_false_not_mem _ _ hpred.1
              have h2 : ip ≠ net.1 + 1 := by
                have := hpred.2
                simpa using this
              refine ⟨cap, net, peers, used, ip, rfl, hnet, rfl, hused, hmem, rfl,
                h1, h2, ?_⟩
              intro ip2 hip2 hlt
              obtain ⟨l1, l2, heq, hall⟩ :=
                find?_eq_some_split _ _ _ hfind
              have hsorted := hostsList_pairwise net
              rw [heq] at hsorted hip2
              have hip2l1 : ip2 ∈ l1 := by
                rcases List.mem_append.mp hip2 with h1 | h2
                · exact h1
                · rcases List.mem_cons.mp h2 with rfl | h3
                  · omega
                  · have := (List.pairwise_append.mp hsorted).2.2
                    have hgt : ip < ip2 := by
                      have hp2 := (List.pairwise_append.mp hsorted).2.1
                      exact (List.pairwise_cons.mp hp2).1 ip2 h3
                    omega
              have hfalse := hall ip2 hip2l1
              simp only [Bool.and_eq_false_iff, Bool.not_eq_false', Bool.not_eq_false] at hfalse
              rcases hfalse with h1 | h2
              · left
                exact List.elem_iff.mp h1
              · right
                simpa using h2
  · intro cap net peers used hcap hnet hpeers hused hall
    unfold allocateIp
    simp only [hcap, hnet, hpeers, hused]
    cases hfind : (hostsList net).find?
        (fun ip => !(used.contains ip) && !(ip = net.1 + 1)) with
    | none => simp only [hfind]
    | some ip =>
      simp only [hfind]
      exact absurd hfind (by
        intro hfind2
        have hpred := List.find?_some hfind2
        have hmem := List.mem_of_find?_eq_some hfind2
        simp only [Bool.and_eq_true, Bool.not_eq_true'] at hpred
        rcases hall ip hmem with hin | hres
        · exact contains_false_not_mem _ _ hpred.1 hin
        · have := hpred.2
          simp [hres] at this)
  · rfl

/-- C4 witness: on the concrete `/24` config with an empty dump, the
characterization instantiates at the returned `10.8.0.2/32`. -/
theorem claim_C4_ip_allocation_witness :
    ∃ cap net peers used ip,
      findAny addressProbe
        ("[Interface]\nAddress = 10.8.0.0/24\nListenPort = 51820\n" : String).data = some cap ∧
      parseNet cap = some net ∧
      parseWgDump 0 180 "" = Except.ok peers ∧
      usedFromIps (allUsedIps peers) = Except.ok used ∧
      ip ∈ hostsList net ∧
      ("10.8.0.2/32" : String) = ipDotted ip ++ "/32" ∧
      ip ∉ used ∧
      ip ≠ net.1 + 1 ∧
      (∀ ip2 ∈ hostsList net, ip2 < ip → ip2 ∈ used ∨ ip2 = net.1 + 1) :=
  (claim_C4_ip_allocation "[Interface]\nAddress = 10.8.0.0/24\nListenPort = 51820\n" "" 0 180).1
    "10.8.0.2/32"
    ((claim_C4_ip_allocation "[Interface]\nAddress = 10.8.0.0/24\nListenPort = 51820\n" "" 0 180).2.2)

/-- When no scanned section's PublicKey token equals the key, the finditer
splice loop removes nothing and reports `removed_any = false`. -/
theorem removeScanF_snd_false (key : List Char) :
    ∀ (fuel : Nat) (s : List Char),
      (∀ sec ∈ sectionsScanF fuel s, sectionKeyTok sec ≠ some key) →
      (removeScanF key fuel s).2 = false := by
  intro fuel
  induction fuel with
  | zero => intro s h; rfl
  | succ fuel ih =>
    intro s h
    simp only [removeScanF, sectionsScanF] at h ⊢
    cases hf : findSplit matchPeerSection s true with
    | none => rfl
    | some r =>
      obtain ⟨pre, suf, sec, rest⟩ := r
      simp only [hf] at h ⊢
      have hsec : sectionKeyTok sec ≠ some key := h sec (List.mem_cons_self _ _)
      have hrest := ih rest (fun s2 hs2 => h s2 (List.mem_cons_of_mem _ hs2))
      cases hk : sectionKeyTok sec with
      | none => simpa using hrest
      | some tok =>
        have htk : ¬ tok = key := fun he => hsec (by rw [hk, he])
        simp only [hk, if_neg htk]
        exact hrest

/-- C6: on a key whose token matches no `[Peer]` section the regex carves
out of the config, `delete_peer` returns `false` and leaves the on-target
config byte-identical (no write, no re-sync). -/
theorem claim_C6_delete_peer_noop (config publicKey : String)
    (h : ∀ sec ∈ configSections config, sectionKeyTok sec ≠ some publicKey.data) :
    deletePeerModel config publicKey = (config, false) := by
  have h2 : (removeScanF publicKey.data (config.length + 1) config.data).2 = false :=
    removeScanF_snd_false publicKey.data (config.data.length + 1) config.data h
  simp [deletePeerModel, removeRawConfig, h2]

set_option maxRecDepth 100000 in
/-- C6 witness: deleting an absent key from a concrete one-peer config
returns `false` and the original text. -/
theorem claim_C6_delete_peer_noop_witness :
    deletePeerModel "[Interface]\nAddress = 10.8.0.0/24\n\n[Peer]\nPublicKey = AAA\n" "BBB" =
      ("[Interface]\nAddress = 10.8.0.0/24\n\n[Peer]\nPublicKey = AAA\n", false) :=
  claim_C6_delete_peer_noop _ _ (by decide)

/-! ## Scanner lemmas on rendered configs (claim C5) -/

/-- `takeWhile` over a satisfied run up to a failing head. -/
theorem takeWhile_run (p : Char → Bool) (a : List Char) (c : Char) (b : List Char)
    (ha : ∀ x ∈ a, p x = true) (hc : p c = false) :
    (a ++ c :: b).takeWhile p = a := by
  induction a with
  | nil => simp [List.takeWhile_cons, hc]
  | cons x t ih =>
    have hx : p x = true := ha x (by simp)
    simp [List.takeWhile_cons, hx, ih (fun y hy => ha y (by simp [hy]))]

/-- `dropWhile` over a satisfied run up to a failing head. -/
theorem dropWhile_run (p : Char → Bool) (a : List Char) (c : Char) (b : List Char)
    (ha : ∀ x ∈ a, p x = true) (hc : p c = false) :
    (a ++ c :: b).dropWhile p = c :: b := by
  induction a with
  | nil => simp [List.dropWhile_cons, hc]
  | cons x t ih =>
    have hx : p x = true := ha x (by simp)
    simp [List.dropWhile_cons, hx, ih (fun y hy => ha y (by simp [hy]))]

/-- A literal matches itself followed by anything. -/
theorem matchLit_self_append (lit r : List Char) : matchLit lit (lit ++ r) = some r := by
  induction lit with
  | nil => rfl
  | cons c t ih => simp [matchLit, ih]

/-- A literal fails on a text that starts with a different character. -/
theorem matchLit_head_ne (p : Char) (pt : List Char) (c : Char) (ct : List Char)
    (h : ¬ p = c) : matchLit (p :: pt) (c :: ct) = none := by
  simp [matchLit, h]

/-- `findSplit` hits at the current line start. -/
theorem findSplit_hit {α : Type} (probe : List Char → Option α) (s : List Char) (a : α)
    (h : probe s = some a) : findSplit probe s true = some ([], s, a) := by
  rw [findSplit.eq_def]
  simp only [h]

/-- `findSplit` steps over one character when the probe does not hit. -/
theorem findSplit_miss_cons {α : Type} (probe : List Char → Option α) (c : Char)
    (t : List Char) (ls : Bool) (h : ls = true → probe (c :: t) = none) :
    findSplit probe (c :: t) ls =
      (findSplit probe t (c = '\n')).map (fun r => (c :: r.1, r.2.1, r.2.2)) := by
  cases ls with
  | false => rfl
  | true =>
    rw [findSplit.eq_def]
    simp only [h rfl]

/-- `findSplit` finds nothing in an empty text whose probe misses there. -/
theorem findSplit_nil {α : Type} (probe : List Char → Option α) (ls : Bool)
    (h : ls = true → probe [] = none) : findSplit probe [] ls = none := by
  cases ls with
  | false => rfl
  | true =>
    rw [findSplit.eq_def]
    simp only [h rfl]

/-- `findSplit` walks a newline-free run without probing (no line start
occurs inside, and `ls` stays false). -/
theorem findSplit_skip_run {α : Type} (probe : List Char → Option α) (a : List Char)
    (ha : ∀ x ∈ a, ¬ x = '\n') (b : List Char) :
    findSplit probe (a ++ b) false =
      (findSplit probe b false).map (fun r => (a ++ r.1, r.2.1, r.2.2)) := by
  induction a with
  | nil =>
    cases h : findSplit probe b false with
    | none => simp [h]
    | some r => simp [h]
  | cons x t ih =>
    have hx : ¬ x = '\n' := ha x (by simp)
    rw [List.cons_append,
        findSplit_miss_cons probe x (t ++ b) false (by simp),
        decide_eq_false hx,
        ih (fun y hy => ha y (by simp [hy]))]
    cases findSplit probe b false with
    | none => rfl
    | some r => simp

/-- `findSplit` steps over one whole line (newline-free body, then the
newline) when the probe misses at its start; the scan resumes at the next
line start. -/
theorem findSplit_skip_line {α : Type} (probe : List Char → Option α) (w : List Char)
    (hw : ∀ x ∈ w, ¬ x = '\n') (b : List Char) (ls : Bool)
    (h : ls = true → probe (w ++ '\n' :: b) = none) :
    findSplit probe (w ++ '\n' :: b) ls =
      (findSplit probe b true).map (fun r => ((w ++ ['\n']) ++ r.1, r.2.1, r.2.2)) := by
  cases w with
  | nil =>
    rw [List.nil_append,
        findSplit_miss_cons probe '\n' b ls (fun hl => h hl),
        show decide ('\n' = '\n') = true from rfl]
    cases findSplit probe b true with
    | none => rfl
    | some r => simp
  | cons x t =>
    have hx : ¬ x = '\n' := hw x (by simp)
    rw [List.cons_append,
        findSplit_miss_cons probe x (t ++ '\n' :: b) ls
          (fun hl => by rw [← List.cons_append]; exact h hl),
        decide_eq_false hx,
        findSplit_skip_run probe t (fun y hy => hw y (by simp [hy])) ('\n' :: b),
        findSplit_miss_cons probe '\n' b false (by simp),
        show decide ('\n' = '\n') = true from rfl]
    cases findSplit probe b true with
    | none => rfl
    | some r => simp [List.append_assoc]

/-- The section lookahead is false at a line whose first non-blank
character is not an opening bracket. -/
theorem lookSectionHeader_false_run (a : List Char) (c : Char) (l : List Char)
    (ha : ∀ x ∈ a, isPyWs x = true) (hws : isPyWs c = false) (hc : ¬ c = '[') :
    lookSectionHeader (a ++ c :: l) = false := by
  unfold lookSectionHeader
  rw [dropWhile_run _ a c l ha hws]
  split
  next t heq =>
    exact absurd (List.cons.inj heq).1 hc
  next => rfl

/-- The lookahead probe misses there. -/
theorem lookProbe_none_run (a : List Char) (c : Char) (l : List Char)
    (ha : ∀ x ∈ a, isPyWs x = true) (hws : isPyWs c = false) (hc : ¬ c = '[') :
    lookProbe (a ++ c :: l) = none := by
  unfold lookProbe
  rw [lookSectionHeader_false_run a c l ha hws hc]
  rfl

/-- The PublicKey probe misses at a line whose first non-blank character is
not a `P`. -/
theorem pkLineProbe_none_run (a : List Char) (c : Char) (l : List Char)
    (ha : ∀ x ∈ a, isPyWs x = true) (hws : isPyWs c = false) (hc : ¬ c = 'P') :
    pkLineProbe (a ++ c :: l) = none := by
  have h1 : matchLit publicKeyLit ((a ++ c :: l).dropWhile isPyWs) = none := by
    rw [dropWhile_run _ a c l ha hws,
        show publicKeyLit = 'P' :: "ublicKey".data from rfl]
    exact matchLit_head_ne 'P' _ c l (fun he => hc he.symm)
  simp only [pkLineProbe, h1]

/-- The PublicKey probe misses at a `PresharedKey` line. -/
theorem pkLineProbe_none_pr (l : List Char) : pkLineProbe ('P' :: 'r' :: l) = none := by
  have h1 : matchLit publicKeyLit (('P' :: 'r' :: l).dropWhile isPyWs) = none := by
    rw [show ('P' :: 'r' :: l).dropWhile isPyWs = 'P' :: 'r' :: l from by
          rw [List.dropWhile_cons, if_neg (by decide)]]
    rw [show publicKeyLit = 'P' :: 'u' :: "blicKey".data from rfl]
    simp only [matchLit]
    rw [if_pos trivial, if_neg (by decide)]
  simp only [pkLineProbe, h1]

/-- Any text whose relevant prefix is blanks then a bracket-free character
splits as a blank run followed by a non-bracket head. -/
theorem firstNonWs_split (m2 : List Char) (hm : '[' ∉ m2) (c : Char)
    (hcw : isPyWs c = false) (hc : ¬ c = '[') (b : List Char) :
    ∃ a d l, (∀ x ∈ a, isPyWs x = true) ∧ isPyWs d = false ∧ ¬ d = '[' ∧
      m2 ++ c :: b = a ++ d :: l := by
  induction m2 with
  | nil => exact ⟨[], c, b, by simp, hcw, hc, rfl⟩
  | cons x t ih =>
    have hx : ¬ x = '[' := fun he => hm (by simp [he])
    by_cases hxw : isPyWs x = true
    · obtain ⟨a, d, l, h1, h2, h3, h4⟩ := ih (fun he => hm (List.mem_cons_of_mem _ he))
      refine ⟨x :: a, d, l, ?_, h2, h3, by simp [h4]⟩
      intro y hy
      rcases List.mem_cons.mp hy with h | h
      · rw [h]; exact hxw
      · exact h1 y h
    · exact ⟨[], x, t ++ c :: b, by simp, by simpa using hxw, hx, by simp⟩

/-- The section matcher fails at a line whose first non-blank character is
not an opening bracket. -/
theorem matchPeerSection_none_run (a : List Char) (c : Char) (l : List Char)
    (ha : ∀ x ∈ a, isPyWs x = true) (hws : isPyWs c = false) (hc : ¬ c = '[') :
    matchPeerSection (a ++ c :: l) = none := by
  have h1 : matchLit peerHeaderLit ((a ++ c :: l).dropWhile isPyWs) = none := by
    rw [dropWhile_run _ a c l ha hws,
        show peerHeaderLit = '[' :: "Peer]".data from rfl]
    exact matchLit_head_ne '[' _ c l (fun he => hc he.symm)
  simp only [matchPeerSection, headerMatch, h1]

/-- The section matcher fails at `[I`-headed text (the interface header). -/
theorem matchPeerSection_none_brI (x : List Char) :
    matchPeerSection ('[' :: 'I' :: x) = none := by
  have h1 : matchLit peerHeaderLit (('[' :: 'I' :: x).dropWhile isPyWs) = none := by
    rw [show ('[' :: 'I' :: x).dropWhile isPyWs = '[' :: 'I' :: x from by
          rw [List.dropWhile_cons, if_neg (by decide)]]
    rw [show peerHeaderLit = '[' :: "Peer]".data from rfl]
    simp only [matchLit]
    rw [if_pos trivial, if_neg (by decide)]
  simp only [matchPeerSection, headerMatch, h1]

/-- Scanning past the body of a well-formed interface part: its lines never
start a `[Peer]` match, so the scan resumes right after its final newline. -/
theorem findSplit_iface_tail (c : Char) (hcw : isPyWs c = false) (hc : ¬ c = '[')
    (b : List Char) :
    ∀ (m2 : List Char), '[' ∉ m2 → ∀ ls : Bool,
      findSplit matchPeerSection (m2 ++ c :: '\n' :: b) ls =
        (findSplit matchPeerSection b true).map
          (fun r => ((m2 ++ [c, '\n']) ++ r.1, r.2.1, r.2.2)) := by
  intro m2
  induction m2 with
  | nil =>
    intro _ ls
    rw [List.nil_append,
        findSplit_miss_cons _ c ('\n' :: b) ls
          (fun _ => matchPeerSection_none_run [] c ('\n' :: b) (by simp) hcw hc),
        decide_eq_false (fun he => by rw [he] at hcw; exact absurd hcw (by decide)),
        findSplit_miss_cons _ '\n' b false (by simp),
        show decide ('\n' = '\n') = true from rfl]
    cases findSplit matchPeerSection b true with
    | none => rfl
    | some r => simp
  | cons x t ih =>
    intro hm ls
    have hmt : '[' ∉ t := fun he => hm (List.mem_cons_of_mem _ he)
    have hprobe : matchPeerSection ((x :: t) ++ c :: '\n' :: b) = none := by
      obtain ⟨a, d, l, h1, h2, h3, h4⟩ := firstNonWs_split (x :: t) hm c hcw hc ('\n' :: b)
      rw [h4]
      exact matchPeerSection_none_run a d l h1 h2 h3
    rw [List.cons_append,
        findSplit_miss_cons _ x (t ++ c :: '\n' :: b) ls (fun _ => by
          rw [← List.cons_append]; exact hprobe),
        ih hmt (decide (x = '\n'))]
    cases findSplit matchPeerSection b true with
    | none => rfl
    | some r => simp

/-- Scanning a whole well-formed interface part finds no section inside it. -/
theorem findSplit_iface (m : List Char) (hm : '[' ∉ m) (c : Char)
    (hcw : isPyWs c = false) (hc : ¬ c = '[') (b : List Char) :
    findSplit matchPeerSection ('[' :: 'I' :: (m ++ c :: '\n' :: b)) true =
      (findSplit matchPeerSection b true).map
        (fun r => (('[' :: 'I' :: (m ++ [c, '\n'])) ++ r.1, r.2.1, r.2.2)) := by
  rw [findSplit_miss_cons _ '[' ('I' :: (m ++ c :: '\n' :: b)) true
        (fun _ => matchPeerSection_none_brI _),
      show decide ('[' = '\n') = false from rfl,
      findSplit_miss_cons _ 'I' (m ++ c :: '\n' :: b) false (by simp),
      show decide ('I' = '\n') = false from rfl,
      findSplit_iface_tail c hcw hc b m hm false]
  cases findSplit matchPeerSection b true with
  | none => rfl
  | some r => simp

/-- A rendered peer is its header followed by its body. -/
theorem renderPeer_decomp (p : RenderedPeer) :
    renderPeer p = '\n' :: (peerHeaderLit ++ ('\n' :: peerBody p)) := by
  simp only [renderPeer, peerBody, List.append_assoc, List.cons_append]
  rfl

/-- The body splits into its four lines. -/
theorem peerBody_lines (p : RenderedPeer) (z : List Char) :
    peerBody p ++ z =
      ('#' :: (" AppType = ".data ++ p.appType.data)) ++ '\n' ::
        ((('P' :: ("ublicKey = ".data ++ p.publicKey.data)) ++ '\n' ::
          ((('P' :: ("resharedKey = ".data ++ p.presharedKey.data)) ++ '\n' ::
            (('A' :: ("llowedIPs = ".data ++ p.allowedIp.data)) ++ '\n' :: z))))) := by
  simp only [peerBody, List.append_assoc, List.cons_append]
  rfl

/-- A whitespace-free token contains no newline. -/
theorem token_no_nl (s : String) (hs : wfToken s) : '\n' ∉ s.data :=
  fun h => absurd (hs.2 '\n' h) (by decide)

/-- Characters of a newline-free list are not newlines. -/
theorem ne_of_mem_not_mem {x : Char} {l : List Char} (h : x ∈ l) (hn : '\n' ∉ l) :
    ¬ x = '\n' := fun he => hn (he ▸ h)

/-- Head form of the lookahead miss. -/
theorem lookProbe_none_head (c : Char) (l : List Char) (hws : isPyWs c = false)
    (hc : ¬ c = '[') : lookProbe (c :: l) = none :=
  lookProbe_none_run [] c l (by simp) hws hc

/-- Head form of the PublicKey-probe miss. -/
theorem pkLineProbe_none_head (c : Char) (l : List Char) (hws : isPyWs c = false)
    (hc : ¬ c = 'P') : pkLineProbe (c :: l) = none :=
  pkLineProbe_none_run [] c l (by simp) hws hc

/-- The PublicKey probe captures the key token on a rendered
`PublicKey = <key>` line followed by a non-blank line. -/
theorem pkLineProbe_hit (k : List Char) (hk : ¬ k = [])
    (hkw : ∀ x ∈ k, isPyWs x = false) (d : Char) (hd : isPyWs d = false)
    (r : List Char) :
    pkLineProbe (('P' :: ("ublicKey = ".data ++ k)) ++ '\n' :: (d :: r)) = some k := by
  have h0 : ((('P' :: ("ublicKey = ".data ++ k)) ++ '\n' :: (d :: r)).dropWhile isPyWs)
      = ('P' :: ("ublicKey = ".data ++ k)) ++ '\n' :: (d :: r) := by
    rw [show ('P' :: ("ublicKey = ".data ++ k)) ++ '\n' :: (d :: r)
          = 'P' :: (("ublicKey = ".data ++ k) ++ '\n' :: (d :: r)) from rfl,
        List.dropWhile_cons, if_neg (by decide)]
  have hm : matchLit publicKeyLit (('P' :: ("ublicKey = ".data ++ k)) ++ '\n' :: (d :: r))
      = some (' ' :: '=' :: ' ' :: (k ++ '\n' :: (d :: r))) := by
    rw [show ('P' :: ("ublicKey = ".data ++ k)) ++ '\n' :: (d :: r)
          = publicKeyLit ++ (' ' :: '=' :: ' ' :: (k ++ '\n' :: (d :: r))) from rfl]
    exact matchLit_self_append _ _
  have h2 : ((' ' : Char) :: '=' :: ' ' :: (k ++ '\n' :: (d :: r))).dropWhile isPyWs
      = '=' :: (' ' :: (k ++ '\n' :: (d :: r))) := by
    rw [List.dropWhile_cons, if_pos (by decide), List.dropWhile_cons, if_neg (by decide)]
  obtain ⟨kc, kt, hkc⟩ : ∃ kc kt, k = kc :: kt := by
    cases k with
    | nil => exact absurd h0 (by exact fun _ => hk rfl)
    | cons kc kt => exact ⟨kc, kt, rfl⟩
  have h3 : ((' ' : Char) :: (k ++ '\n' :: (d :: r))).dropWhile isPyWs
      = k ++ '\n' :: (d :: r) := by
    rw [hkc, List.dropWhile_cons, if_pos (by decide), List.cons_append,
        List.dropWhile_cons, if_neg (by simp [hkw kc (by rw [hkc]; simp)])]
  have h4 : (k ++ '\n' :: (d :: r)).takeWhile (fun c => !(isPyWs c)) = k :=
    takeWhile_run _ k '\n' (d :: r) (fun x hx => by simp [hkw x hx]) (by decide)
  have h5 : (k ++ '\n' :: (d :: r)).dropWhile (fun c => !(isPyWs c)) = '\n' :: (d :: r) :=
    dropWhile_run _ k '\n' (d :: r) (fun x hx => by simp [hkw x hx]) (by decide)
  have h6 : (('\n' : Char) :: (d :: r)).takeWhile isPyWs = ['\n'] :=
    takeWhile_run isPyWs ['\n'] d r (by decide) hd
  have h7 : (('\n' : Char) :: (d :: r)).dropWhile isPyWs = d :: r :=
    dropWhile_run isPyWs ['\n'] d r (by decide) hd
  simp only [pkLineProbe, h0, hm, h2, h3, h4, h5, h6, h7, if_neg hk]
  simp

/-- `re.search` of the PublicKey pattern inside a rendered peer section
captures exactly that peer's key. -/
theorem sectionKeyTok_renderPeer (p : RenderedPeer) (hp : wfPeer p) :
    sectionKeyTok (renderPeer p) = some p.publicKey.data := by
  obtain ⟨hta, htk, hts, hti⟩ := hp
  have hnl1 : '\n' ∉ ('#' :: (" AppType = ".data ++ p.appType.data)) := by
    intro h
    rcases List.mem_cons.mp h with h | h
    · exact absurd h (by decide)
    rcases List.mem_append.mp h with h | h
    · exact absurd h (by decide)
    · exact token_no_nl _ hta h
  have hhit : pkLineProbe (('P' :: ("ublicKey = ".data ++ p.publicKey.data)) ++ '\n' ::
      ((('P' :: ("resharedKey = ".data ++ p.presharedKey.data)) ++ '\n' ::
        (('A' :: ("llowedIPs = ".data ++ p.allowedIp.data)) ++ '\n' :: ([] : List Char)))))
      = some p.publicKey.data :=
    pkLineProbe_hit p.publicKey.data htk.1 htk.2 'P' (by decide) _
  unfold sectionKeyTok
  rw [renderPeer_decomp p]
  rw [findSplit_miss_cons _ '\n' (peerHeaderLit ++ ('\n' :: peerBody p)) true
        (fun _ => pkLineProbe_none_run ['\n'] '[' ("Peer]".data ++ ('\n' :: peerBody p))
          (by decide) (by decide) (by decide)),
      show decide ('\n' = '\n') = true from rfl]
  rw [findSplit_skip_line pkLineProbe peerHeaderLit
        (fun x hx => ne_of_mem_not_mem hx (by decide)) (peerBody p) true
        (fun _ => pkLineProbe_none_head '[' _ (by decide) (by decide))]
  rw [show peerBody p = peerBody p ++ [] from (List.append_nil _).symm, peerBody_lines p []]
  rw [findSplit_skip_line pkLineProbe ('#' :: (" AppType = ".data ++ p.appType.data))
        (fun x hx => ne_of_mem_not_mem hx hnl1) _ true
        (fun _ => pkLineProbe_none_head '#' _ (by decide) (by decide))]
  rw [findSplit_hit pkLineProbe _ _ hhit]
  simp

/-- A rendered peer list starting with a peer is seen by the lookahead as a
section header position. -/
theorem lookProbe_renderPeers_cons (p : RenderedPeer) (t : List RenderedPeer) :
    lookProbe (renderPeers (p :: t)) = some () := by
  have e1 : renderPeers (p :: t)
      = ['\n'] ++ '[' :: ("Peer".data ++ (']' :: ('\n' :: (peerBody p ++ renderPeers t)))) := by
    show renderPeer p ++ renderPeers t = _
    rw [renderPeer_decomp]
    simp only [List.append_assoc, List.cons_append]
    rfl
  have hw2 : (('\n' : Char) :: (peerBody p ++ renderPeers t)).takeWhile isPyWs = ['\n'] := by
    rw [peerBody_lines p (renderPeers t)]
    exact takeWhile_run isPyWs ['\n'] '#' _ (by decide) (by decide)
  have hr4 : (('\n' : Char) :: (peerBody p ++ renderPeers t)).dropWhile isPyWs
      = '#' :: ((" AppType = ".data ++ p.appType.data) ++
          '\n' :: ((('P' :: ("ublicKey = ".data ++ p.publicKey.data)) ++ '\n' ::
            ((('P' :: ("resharedKey = ".data ++ p.presharedKey.data)) ++ '\n' ::
              (('A' :: ("llowedIPs = ".data ++ p.allowedIp.data)) ++ '\n' ::
                renderPeers t)))))) := by
    rw [peerBody_lines p (renderPeers t)]
    exact dropWhile_run isPyWs ['\n'] '#' _ (by decide) (by decide)
  have hls : lookSectionHeader (renderPeers (p :: t)) = true := by
    unfold lookSectionHeader
    rw [e1, dropWhile_run isPyWs ['\n'] '[' _ (by decide) (by decide)]
    split
    next tt heq =>
      obtain ⟨-, htt⟩ := List.cons.inj heq
      rw [← htt,
          takeWhile_run (fun c => !(c = ']')) "Peer".data ']' _ (by decide) (by decide),
          dropWhile_run (fun c => !(c = ']')) "Peer".data ']' _ (by decide) (by decide),
          show ("Peer".data : List Char) = 'P' :: "eer".data from rfl]
      simp [hw2, hr4]
    next hno =>
      exact absurd rfl (hno ("Peer".data ++ (']' :: ('\n' :: (peerBody p ++ renderPeers t)))))
  unfold lookProbe
  rw [hls]
  rfl

/-- The lazy body scan crosses a rendered peer body without a lookahead
hit and resumes at the text that follows it. -/
theorem findSplit_look_body (p : RenderedPeer) (hp : wfPeer p) (z : List Char) :
    findSplit lookProbe ('\n' :: (peerBody p ++ z)) false =
      (findSplit lookProbe z true).map
        (fun r => (('\n' :: peerBody p) ++ r.1, r.2.1, r.2.2)) := by
  obtain ⟨hta, htk, hts, hti⟩ := hp
  have hnl1 : '\n' ∉ ('#' :: (" AppType = ".data ++ p.appType.data)) := by
    intro h
    rcases List.mem_cons.mp h with h | h
    · exact absurd h (by decide)
    rcases List.mem_append.mp h with h | h
    · exact absurd h (by decide)
    · exact token_no_nl _ hta h
  have hnl2 : '\n' ∉ ('P' :: ("ublicKey = ".data ++ p.publicKey.data)) := by
    intro h
    rcases List.mem_cons.mp h with h | h
    · exact absurd h (by decide)
    rcases List.mem_append.mp h with h | h
    · exact absurd h (by decide)
    · exact token_no_nl _ htk h
  have hnl3 : '\n' ∉ ('P' :: ("resharedKey = ".data ++ p.presharedKey.data)) := by
    intro h
    rcases List.mem_cons.mp h with h | h
    · exact absurd h (by decide)
    rcases List.mem_append.mp h with h | h
    · exact absurd h (by decide)
    · exact token_no_nl _ hts h
  have hnl4 : '\n' ∉ ('A' :: ("llowedIPs = ".data ++ p.allowedIp.data)) := by
    intro h
    rcases List.mem_cons.mp h with h | h
    · exact absurd h (by decide)
    rcases List.mem_append.mp h with h | h
    · exact absurd h (by decide)
    · exact token_no_nl _ hti h
  rw [findSplit_miss_cons _ '\n' (peerBody p ++ z) false (by simp),
      show decide ('\n' = '\n') = true from rfl,
      peerBody_lines p z,
      findSplit_skip_line lookProbe _ (fun x hx => ne_of_mem_not_mem hx hnl1) _ true
        (fun _ => lookProbe_none_head '#' _ (by decide) (by decide)),
      findSplit_skip_line lookProbe _ (fun x hx => ne_of_mem_not_mem hx hnl2) _ true
        (fun _ => lookProbe_none_head 'P' _ (by decide) (by decide)),
      findSplit_skip_line lookProbe _ (fun x hx => ne_of_mem_not_mem hx hnl3) _ true
        (fun _ => lookProbe_none_head 'P' _ (by decide) (by decide)),
      findSplit_skip_line lookProbe _ (fun x hx => ne_of_mem_not_mem hx hnl4) _ true
        (fun _ => lookProbe_none_head 'A' _ (by decide) (by decide))]
  cases findSplit lookProbe z true with
  | none => rfl
  | some r => simp [peerBody_lines, List.append_assoc]

/-- One finditer match carves exactly one rendered peer section, resuming
at the following text (which is empty or starts another rendered peer). -/
theorem matchPeerSection_renderPeer (p : RenderedPeer) (hp : wfPeer p) (z : List Char)
    (hz : lookProbe z = some () ∨ z = []) :
    matchPeerSection (renderPeer p ++ z) = some (renderPeer p, z) := by
  have e1 : renderPeer p ++ z
      = ['\n'] ++ '[' :: ("Peer]".data ++ ('\n' :: (peerBody p ++ z))) := by
    rw [renderPeer_decomp]
    simp only [List.append_assoc, List.cons_append]
    rfl
  have hpb : peerBody p ++ z
      = '#' :: ((" AppType = ".data ++ p.appType.data) ++
          '\n' :: ((('P' :: ("ublicKey = ".data ++ p.publicKey.data)) ++ '\n' ::
            ((('P' :: ("resharedKey = ".data ++ p.presharedKey.data)) ++ '\n' ::
              (('A' :: ("llowedIPs = ".data ++ p.allowedIp.data)) ++ '\n' :: z)))))) := by
    rw [peerBody_lines p z]
    rfl
  have hw2 : (('\n' : Char) :: (peerBody p ++ z)).takeWhile isPyWs = ['\n'] := by
    rw [hpb]
    exact takeWhile_run isPyWs ['\n'] '#' _ (by decide) (by decide)
  have hd2 : (('\n' : Char) :: (peerBody p ++ z)).dropWhile isPyWs
      = '#' :: ((" AppType = ".data ++ p.appType.data) ++
          '\n' :: ((('P' :: ("ublicKey = ".data ++ p.publicKey.data)) ++ '\n' ::
            ((('P' :: ("resharedKey = ".data ++ p.presharedKey.data)) ++ '\n' ::
              (('A' :: ("llowedIPs = ".data ++ p.allowedIp.data)) ++ '\n' :: z)))))) := by
    rw [hpb]
    exact dropWhile_run isPyWs ['\n'] '#' _ (by decide) (by decide)
  have hml : matchLit peerHeaderLit ('[' :: ("Peer]".data ++ ('\n' :: (peerBody p ++ z))))
      = some ('\n' :: (peerBody p ++ z)) := matchLit_self_append peerHeaderLit _
  have hhm : headerMatch (renderPeer p ++ z)
      = some ('\n' :: peerHeaderLit, '\n' :: (peerBody p ++ z)) := by
    unfold headerMatch
    rw [e1, takeWhile_run isPyWs ['\n'] '[' _ (by decide) (by decide),
        dropWhile_run isPyWs ['\n'] '[' _ (by decide) (by decide)]
    simp only [hml, hw2, hd2]
    rw [if_neg (by simp)]
    rw [show splitAtLastNl ['\n'] = some ([], ['\n']) from rfl]
    rw [hpb]
    rfl
  unfold matchPeerSection
  simp only [hhm]
  rw [show lastIsNl ('\n' :: peerHeaderLit) = false from rfl,
      findSplit_look_body p hp z]
  cases hz with
  | inl hzl =>
    rw [findSplit_hit lookProbe z () hzl]
    simp [renderPeer_decomp]
  | inr hze =>
    rw [hze, findSplit_nil lookProbe true (fun _ => rfl)]
    simp [renderPeer_decomp]

/-- The splice loop on a pure rendered peer list removes exactly the
matching sections and reports whether any matched. -/
theorem removeScanF_renderPeers (key : List Char) :
    ∀ (ps : List RenderedPeer) (fuel : Nat), (∀ p ∈ ps, wfPeer p) → ps.length < fuel →
      removeScanF key fuel (renderPeers ps) =
        (renderPeers (ps.filter (fun p => !(p.publicKey.data == key))),
         ps.any (fun p => p.publicKey.data == key)) := by
  intro ps
  induction ps with
  | nil =>
    intro fuel _ hf
    cases fuel with
    | zero => omega
    | succ f =>
      show removeScanF key (f + 1) [] = ([], false)
      simp only [removeScanF]
      rw [findSplit_nil matchPeerSection true (fun _ => rfl)]
  | cons p t ih =>
    intro fuel hwf hf
    cases fuel with
    | zero => omega
    | succ f =>
      have hwp : wfPeer p := hwf p (by simp)
      have hwt : ∀ q ∈ t, wfPeer q := fun q hq => hwf q (by simp [hq])
      have hms : matchPeerSection (renderPeer p ++ renderPeers t)
          = some (renderPeer p, renderPeers t) := by
        cases t with
        | nil => exact matchPeerSection_renderPeer p hwp _ (Or.inr rfl)
        | cons q u =>
          exact matchPeerSection_renderPeer p hwp _ (Or.inl (lookProbe_renderPeers_cons q u))
      show removeScanF key (f + 1) (renderPeer p ++ renderPeers t) = _
      simp only [removeScanF]
      rw [show renderPeer p ++ renderPeers t
            = (renderPeer p ++ renderPeers t : List Char) from rfl,
          findSplit_hit matchPeerSection _ _ hms]
      simp only [sectionKeyTok_renderPeer p hwp,
        ih f hwt (by simp only [List.length_cons] at hf; omega)]
      by_cases hk : p.publicKey.data = key
      · rw [if_pos hk]
        have hbk : (p.publicKey.data == key) = true := by
          rw [hk]; exact beq_self_eq_true key
        simp [List.filter_cons, List.any_cons, hbk]
      · rw [if_neg hk]
        have hbk : (p.publicKey.data == key) = false := beq_eq_false_iff_ne.mpr hk
        simp [List.filter_cons, List.any_cons, hbk, renderPeers]

/-- Rendering an empty peer list is empty. -/
theorem renderPeers_nil : renderPeers [] = [] := by decide

/-- The splice loop on a rendered config: the interface part is kept
verbatim and exactly the matching peer sections are excised. -/
theorem removeScanF_renderConfig (key : List Char) (m : List Char) (hm : '[' ∉ m)
    (c : Char) (hcw : isPyWs c = false) (hc : ¬ c = '[') (ps : List RenderedPeer)
    (hwf : ∀ p ∈ ps, wfPeer p) (fuel : Nat) (hf : ps.length < fuel) :
    removeScanF key (fuel + 1) (('[' :: 'I' :: (m ++ [c, '\n'])) ++ renderPeers ps) =
      (('[' :: 'I' :: (m ++ [c, '\n'])) ++
         renderPeers (ps.filter (fun p => !(p.publicKey.data == key))),
       ps.any (fun p => p.publicKey.data == key)) := by
  have e : ('[' :: 'I' :: (m ++ [c, '\n'])) ++ renderPeers ps
      = '[' :: 'I' :: (m ++ c :: '\n' :: renderPeers ps) := by
    simp [List.append_assoc]
  rw [e]
  simp only [removeScanF]
  rw [findSplit_iface m hm c hcw hc (renderPeers ps)]
  cases ps with
  | nil =>
    rw [renderPeers_nil, findSplit_nil matchPeerSection true (fun _ => rfl)]
    simp [renderPeers_nil, List.append_assoc]
  | cons q u =>
    have hwq : wfPeer q := hwf q (by simp)
    have hwu : ∀ x ∈ u, wfPeer x := fun x hx => hwf x (by simp [hx])
    have hms : matchPeerSection (renderPeer q ++ renderPeers u)
        = some (renderPeer q, renderPeers u) := by
      cases u with
      | nil => exact matchPeerSection_renderPeer q hwq _ (Or.inr rfl)
      | cons a b =>
        exact matchPeerSection_renderPeer q hwq _ (Or.inl (lookProbe_renderPeers_cons a b))
    rw [show renderPeers (q :: u) = renderPeer q ++ renderPeers u from rfl,
        findSplit_hit matchPeerSection _ _ hms]
    simp only [Option.map]
    simp only [sectionKeyTok_renderPeer q hwq,
        removeScanF_renderPeers key u fuel hwu
          (by simp only [List.length_cons] at hf; omega)]
    by_cases hk : q.publicKey.data = key
    · rw [if_pos hk]
      have hbk : (q.publicKey.data == key) = true := by
        rw [hk]; exact beq_self_eq_true key
      simp [List.filter_cons, List.any_cons, hbk, List.append_assoc]
    · rw [if_neg hk]
      have hbk : (q.publicKey.data == key) = false := beq_eq_false_iff_ne.mpr hk
      simp [List.filter_cons, List.any_cons, hbk, renderPeers, List.append_assoc]

/-- A rendered peer section is nonempty. -/
theorem renderPeer_length_pos (p : RenderedPeer) : 0 < (renderPeer p).length := by
  rw [renderPeer_decomp]
  simp

/-- Rendering never shrinks below the peer count. -/
theorem length_le_renderPeers : ∀ ps : List RenderedPeer,
    ps.length ≤ (renderPeers ps).length := by
  intro ps
  induction ps with
  | nil => simp [renderPeers_nil]
  | cons p t ih =>
    have hp := renderPeer_length_pos p
    show (p :: t).length ≤ (renderPeer p ++ renderPeers t).length
    simp only [List.length_cons, List.length_append]
    omega

/-- Filtering only shrinks the rendering. -/
theorem renderPeers_filter_length_le (q : RenderedPeer → Bool) :
    ∀ ps : List RenderedPeer,
      (renderPeers (ps.filter q)).length ≤ (renderPeers ps).length := by
  intro ps
  induction ps with
  | nil => simp [renderPeers_nil]
  | cons p t ih =>
    rw [List.filter_cons]
    by_cases hq : q p = true
    · rw [if_pos hq]
      show (renderPeer p ++ renderPeers (t.filter q)).length
          ≤ (renderPeer p ++ renderPeers t).length
      simp only [List.length_append]
      omega
    · rw [if_neg hq]
      show (renderPeers (t.filter q)).length ≤ (renderPeer p ++ renderPeers t).length
      simp only [List.length_append]
      omega

/-- Removing a present key strictly shrinks the rendering. -/
theorem renderPeers_remove_length_lt (key : List Char) :
    ∀ ps : List RenderedPeer, ps.any (fun p => p.publicKey.data == key) = true →
      (renderPeers (ps.filter (fun p => !(p.publicKey.data == key)))).length
        < (renderPeers ps).length := by
  intro ps
  induction ps with
  | nil => intro h; simp at h
  | cons p t ih =>
    intro h
    rw [List.filter_cons]
    by_cases hk : (p.publicKey.data == key) = true
    · rw [if_neg (by simp [hk])]
      have hle := renderPeers_filter_length_le (fun p => !(p.publicKey.data == key)) t
      have hpos := renderPeer_length_pos p
      show _ < (renderPeer p ++ renderPeers t).length
      simp only [List.length_append]
      omega
    · rw [if_pos (by simp [hk])]
      have ht : t.any (fun p => p.publicKey.data == key) = true := by
        rcases List.any_eq_true.mp h with ⟨x, hx, hxk⟩
        rcases List.mem_cons.mp hx with he | he
        · exact absurd (he ▸ hxk) hk
        · exact List.any_eq_true.mpr ⟨x, he, hxk⟩
      have hlt := ih ht
      show (renderPeer p ++ renderPeers (t.filter _)).length
          < (renderPeer p ++ renderPeers t).length
      simp only [List.length_append]
      omega

/-- C5 (amended to the code's regex segmentation): on a config rendered as
a well-formed interface part followed by rendered peer sections, deleting a
key held by at least one section excises exactly the matching sections,
keeps the interface part and all other sections verbatim and in order,
writes the result, and returns `true`. -/
theorem claim_C5_delete_peer_removal (iface : String) (ps : List RenderedPeer)
    (key : String) (hi : wfIface iface) (hps : ∀ p ∈ ps, wfPeer p)
    (hm : ∃ p ∈ ps, p.publicKey.data = key.data) :
    deletePeerModel (renderConfig iface ps) key =
      (renderConfig iface (ps.filter (fun p => !(p.publicKey.data == key.data))), true) := by
  obtain ⟨m, c, hif, hnm, hcne, hcws⟩ := hi
  have hany : ps.any (fun p => p.publicKey.data == key.data) = true := by
    obtain ⟨p, hmem, hpk⟩ := hm
    exact List.any_eq_true.mpr ⟨p, hmem, by rw [hpk]; exact beq_self_eq_true _⟩
  have hdata : (renderConfig iface ps).data
      = ('[' :: 'I' :: (m ++ [c, '\n'])) ++ renderPeers ps := by
    show iface.data ++ renderPeers ps = _
    rw [hif]
    simp [List.append_assoc]
  have hfuel : ps.length < (('[' :: 'I' :: (m ++ [c, '\n'])) ++ renderPeers ps).length := by
    have h1 := length_le_renderPeers ps
    simp only [List.length_append, List.length_cons]
    omega
  have h2 : removeScanF key.data ((renderConfig iface ps).length + 1)
        (renderConfig iface ps).data
      = (('[' :: 'I' :: (m ++ [c, '\n'])) ++
          renderPeers (ps.filter (fun p => !(p.publicKey.data == key.data))), true) := by
    rw [show (renderConfig iface ps).length = (renderConfig iface ps).data.length from rfl,
        hdata,
        removeScanF_renderConfig key.data m hnm c hcws hcne ps hps _ hfuel,
        hany]
  have hlt := renderPeers_remove_length_lt key.data ps hany
  have hne : String.mk ('[' :: 'I' ::
        (m ++ c :: '\n' :: renderPeers (ps.filter (fun p => !(p.publicKey.data == key.data)))))
      ≠ renderConfig iface ps := by
    intro heq
    have hd := congrArg String.data heq
    rw [show (String.mk ('[' :: 'I' ::
          (m ++ c :: '\n' :: renderPeers (ps.filter (fun p => !(p.publicKey.data == key.data)))))).data
        = '[' :: 'I' ::
          (m ++ c :: '\n' :: renderPeers (ps.filter (fun p => !(p.publicKey.data == key.data))))
        from rfl,
        hdata] at hd
    have hdl := congrArg List.length hd
    simp only [List.length_append, List.length_cons] at hdl
    omega
  have hla2 : iface.data ++
        renderPeers (ps.filter (fun p => !(p.publicKey.data == key.data)))
      = '[' :: 'I' ::
        (m ++ c :: '\n' :: renderPeers (ps.filter (fun p => !(p.publicKey.data == key.data)))) := by
    rw [hif]
    simp [List.append_assoc]
  have hout : String.mk ('[' :: 'I' ::
        (m ++ c :: '\n' :: renderPeers (ps.filter (fun p => !(p.publicKey.data == key.data)))))
      = renderConfig iface (ps.filter (fun p => !(p.publicKey.data == key.data))) :=
    (congrArg String.mk hla2).symm
  simp [deletePeerModel, removeRawConfig, h2, hne, hout]
  rw [← hout]
  exact hne

set_option maxRecDepth 400000 in
/-- C5 counterexample: on a config whose matching `[Peer]` section directly
follows a non-blank line while a later section is preceded by a blank line,
the code's regex attaches the preceding blank line to the section it
removes, so the rewritten text differs from the claim's line-block
segmentation (which would keep that blank line). -/
theorem claim_C5_counterexample :
    deletePeerModel "[Interface]\nA\n[Peer]\nPublicKey = K\n\n[Peer]\nPublicKey = L\n" "K"
      = ("[Interface]\nA\n\n[Peer]\nPublicKey = L\n", true) ∧
    removeSpec "[Interface]\nA\n[Peer]\nPublicKey = K\n\n[Peer]\nPublicKey = L\n" "K"
      = "[Interface]\nA\n[Peer]\nPublicKey = L\n" ∧
    (deletePeerModel "[Interface]\nA\n[Peer]\nPublicKey = K\n\n[Peer]\nPublicKey = L\n" "K").1
      ≠ removeSpec "[Interface]\nA\n[Peer]\nPublicKey = K\n\n[Peer]\nPublicKey = L\n" "K" := by
  refine ⟨?_, ?_, ?_⟩ <;> decide

set_option maxRecDepth 400000 in
/-- C5 witness: deleting `K1` from a rendered two-peer config keeps the
interface part and the other peer section and returns `true`. -/
theorem claim_C5_delete_peer_removal_witness :
    deletePeerModel (renderConfig "[Interface]\nAddress = 10.8.0.0/24\n"
        [⟨"amnezia_vpn", "K1", "P1", "10.8.0.2/32"⟩,
         ⟨"amnezia_vpn", "K2", "P2", "10.8.0.3/32"⟩]) "K1"
      = (renderConfig "[Interface]\nAddress = 10.8.0.0/24\n"
          [⟨"amnezia_vpn", "K2", "P2", "10.8.0.3/32"⟩], true) := by
  have h := claim_C5_delete_peer_removal "[Interface]\nAddress = 10.8.0.0/24\n"
    [⟨"amnezia_vpn", "K1", "P1", "10.8.0.2/32"⟩,
     ⟨"amnezia_vpn", "K2", "P2", "10.8.0.3/32"⟩] "K1"
    ⟨"nterface]\nAddress = 10.8.0.0/2".data, '4', by decide, by decide, by decide, by decide⟩
    (by
      intro p hp
      rcases List.mem_cons.mp hp with h | h
      · rw [h]
        exact ⟨⟨by decide, by decide⟩, ⟨by decide, by decide⟩,
               ⟨by decide, by decide⟩, ⟨by decide, by decide⟩⟩
      · rcases List.mem_cons.mp h with h2 | h2
        · rw [h2]
          exact ⟨⟨by decide, by decide⟩, ⟨by decide, by decide⟩,
                 ⟨by decide, by decide⟩, ⟨by decide, by decide⟩⟩
        · exact absurd h2 (by simp))
    ⟨⟨"amnezia_vpn", "K1", "P1", "10.8.0.2/32"⟩, by simp, rfl⟩
  rw [show List.filter (fun p => !(p.publicKey.data == "K1".data))
        [(⟨"amnezia_vpn", "K1", "P1", "10.8.0.2/32"⟩ : RenderedPeer),
         ⟨"amnezia_vpn", "K2", "P2", "10.8.0.3/32"⟩]
      = [⟨"amnezia_vpn", "K2", "P2", "10.8.0.3/32"⟩] from rfl] at h
  exact h

end Amnezia
